import Mathlib

/-!
# callreport: the aggregation engine of `src/spreadsheet.go`

A shallow embedding of `calculate` and `intToFloatString`, together with the
pieces of the Go runtime they rely on (`int` arithmetic, `strconv.Atoi`,
`strings.Replace`, the `%d` verb of `fmt.Sprintf`, slice indexing).

Conventions.

* A Go `string` is a Lean `String`; a `[]string` is a `List String`; a
  `[][]string` is a `List (List String)`.
* A Go `int` is a Lean `Int` kept inside the signed 64-bit range.  The only
  operation of the program that can leave that range is `+=` on an
  accumulator, and it is modelled with explicit wrap-around (`goAdd`).  The
  other operations (`n / 6`, `n - n/6`, `n / 100`, `intgr * 100`,
  `n - intgr*100`) cannot overflow on a 64-bit operand, so they are the plain
  `Int` operations, with `/` the truncating division `Int.tdiv`.
* A run of `calculate` ends in one of three ways: it returns the report, it
  stops at `log.Fatalf`, or it panics on an index out of range.  The last two
  are the `Failure` values of an `Except`.
-/

namespace Callreport

/-! ## Go runtime -/

/-- Smallest value of a 64-bit Go `int`. -/
def minInt : Int := -9223372036854775808

/-- Largest value of a 64-bit Go `int`. -/
def maxInt : Int := 9223372036854775807

/-- The integer lies in the range of a 64-bit Go `int`. -/
def inIntRange (x : Int) : Prop := minInt ≤ x ∧ x ≤ maxInt

instance (x : Int) : Decidable (inIntRange x) := by
  unfold inIntRange; exact inferInstance

/-- Two's-complement reduction of an integer to the signed 64-bit range. -/
def wrapInt (x : Int) : Int :=
  (x + 9223372036854775808) % 18446744073709551616 - 9223372036854775808

/-- Go's `a + b` on `int`: addition with silent wrap-around. -/
def goAdd (a b : Int) : Int := wrapInt (a + b)

/-- The call `strings.Replace(s, ".", "", -1)`: every `.` is removed. -/
def replaceDots (s : String) : String :=
  String.mk (s.data.filter (fun c => c != '.'))

/-- Value of an ASCII decimal digit, `none` for any other character. -/
def digitOf (c : Char) : Option Nat :=
  if 48 ≤ c.toNat ∧ c.toNat ≤ 57 then some (c.toNat - 48) else none

/-- The digit loop of `strconv`: `n = n*10 + d` from left to right; any
character that is not a decimal digit is a syntax error. -/
def parseUint : List Char → Nat → Option Nat
  | [], n => some n
  | c :: cs, n =>
    match digitOf c with
    | none => none
    | some d => parseUint cs (n * 10 + d)

/-- The function `strconv.Atoi` on a 64-bit platform, with `none` standing for
a non-nil error: an optional sign `+` or `-`, then at least one decimal
digit and nothing else, the value within the range of `int`. -/
def Atoi (s : String) : Option Int :=
  match s.data with
  | [] => none
  | c :: cs =>
    if c = '-' then
      if cs = [] then none
      else
        match parseUint cs 0 with
        | none => none
        | some u => if u ≤ 9223372036854775808 then some (-(u : Int)) else none
    else if c = '+' then
      if cs = [] then none
      else
        match parseUint cs 0 with
        | none => none
        | some u => if u ≤ 9223372036854775807 then some (u : Int) else none
    else
      match parseUint (c :: cs) 0 with
      | none => none
      | some u => if u ≤ 9223372036854775807 then some (u : Int) else none

/-- The verb `%d` of `fmt.Sprintf` on an `int`: a minus sign for a negative
value, then the decimal digits of the magnitude without padding. -/
def fmtD (x : Int) : String :=
  if x < 0 then "-" ++ Nat.repr x.natAbs else Nat.repr x.natAbs

/-! ## The program -/

/-- How a run of `calculate` can stop without returning. -/
inductive Failure where
  /-- Exit through `log.Fatalf("Cannot retrieve price of %s: %s\n", item, err)`. -/
  | fatalPrice (item : String)
  /-- Exit through `log.Fatalf("Cannot retrieve call price of %s: %s\n", item, err)`. -/
  | fatalCallPrice (item : String)
  /-- Run-time panic of `rows[i][0]` or `rows[i][10]`. -/
  | indexOutOfRange
  deriving DecidableEq, Repr

/-- The nine local accumulators of `calculate`, in declaration order. -/
structure Acc where
  sum : Int
  tsm : Int
  gee : Int
  divat : Int
  mdtrans : Int
  lestris : Int
  legalteh : Int
  tehnogrant : Int
  sacramento : Int
  deriving DecidableEq, Repr

/-- The accumulators as initialised at the top of `calculate`. -/
def Acc.zero : Acc := ⟨0, 0, 0, 0, 0, 0, 0, 0, 0⟩

/-- The function `intToFloatString` of the source: `intgr := n / 100`,
`frac := n - intgr*100`, `fmt.Sprintf("%d.%d", intgr, frac)`. -/
def intToFloatString (n : Int) : String :=
  let intgr := n.tdiv 100
  let frac := n - intgr * 100
  fmtD intgr ++ "." ++ fmtD frac

/-- The body of the `for` loop of `calculate` for an index `i ≥ 1`. -/
def loopBody (acc : Acc) (row : List String) : Except Failure Acc :=
  match row[0]? with
  | none => .error .indexOutOfRange
  | some item =>
    match row[10]? with
    | none => .error .indexOutOfRange
    | some field =>
      match Atoi (replaceDots field) with
      | none => .error (.fatalPrice item)
      | some price =>
        match Atoi (replaceDots field) with
        | none => .error (.fatalCallPrice item)
        | some qty =>
          let total := price
          let acc := { acc with sum := goAdd acc.sum total }
          let acc :=
            if item = "022207210" ∨ item = "022207216" ∨ item = "022207217" ∨
                item = "022207240" ∨ item = "022207250" ∨ item = "022207283" ∨
                item = "022207284" ∨ item = "022207289" then
              { acc with tsm := goAdd acc.tsm qty }
            else acc
          let acc :=
            if item = "022207201" ∨ item = "022207207" then
              { acc with gee := goAdd acc.gee qty }
            else acc
          let acc :=
            if item = "022207204" then { acc with lestris := goAdd acc.lestris qty }
            else acc
          let acc :=
            if item = "022207224" ∨ item = "022207226" then
              { acc with legalteh := goAdd acc.legalteh qty }
            else acc
          let acc :=
            if item = "022207244" ∨ item = "022207247" then
              { acc with tehnogrant := goAdd acc.tehnogrant qty }
            else acc
          let acc :=
            if item = "022207249" then { acc with sacramento := goAdd acc.sacramento qty }
            else acc
          let acc :=
            if item = "022207266" then { acc with divat := goAdd acc.divat qty }
            else acc
          let acc :=
            if item = "022207277" ∨ item = "022207279" then
              { acc with mdtrans := goAdd acc.mdtrans qty }
            else acc
          .ok acc

/-- The loop `for i := range rows` of `calculate`, from index `i` on, over the
rows that are still to be visited: index 0 is skipped by `continue`. -/
def calculateLoop : Nat → List (List String) → Acc → Except Failure Acc
  | _, [], acc => .ok acc
  | i, row :: rest, acc =>
    if i = 0 then calculateLoop (i + 1) rest acc
    else
      match loopBody acc row with
      | .error e => .error e
      | .ok acc' => calculateLoop (i + 1) rest acc'

/-- The nine rows appended to `rows_new` after the loop. -/
def report (a : Acc) : List (List String) :=
  [ ["TSM", ":", intToFloatString (a.tsm - a.tsm.tdiv 6)],
    ["GEE", ":", intToFloatString (a.gee - a.gee.tdiv 6)],
    ["LESTRIS", ":", intToFloatString (a.lestris - a.lestris.tdiv 6)],
    ["LEGAL TEHNOLOGIES", ":", intToFloatString (a.legalteh - a.legalteh.tdiv 6)],
    ["TEHNOGRANT", ":", intToFloatString (a.tehnogrant - a.tehnogrant.tdiv 6)],
    ["SACRAMENTO", ":", intToFloatString (a.sacramento - a.sacramento.tdiv 6)],
    ["DIVAT", ":", intToFloatString (a.divat - a.divat.tdiv 6)],
    ["MDTRANS", ":", intToFloatString (a.mdtrans - a.mdtrans.tdiv 6)],
    ["", "", "", "Sum", "", intToFloatString (a.sum - a.sum.tdiv 6)] ]

/-- The function `calculate` of the source.  The argument `clients` is not read. -/
def calculate (rows : List (List String)) (_clients : List (List String)) :
    Except Failure (List (List String)) :=
  match calculateLoop 0 rows Acc.zero with
  | .error e => .error e
  | .ok a => .ok (report a)

/-! ## Specification-side vocabulary -/

/-- The eight report categories, in the order of their report rows. -/
inductive Category where
  | tsm | gee | lestris | legalteh | tehnogrant | sacramento | divat | mdtrans
  deriving DecidableEq, Repr, Fintype

/-- The identifiers compared against `item` in the `if` of each category. -/
def Category.ids : Category → List String
  | .tsm => ["022207210", "022207216", "022207217", "022207240", "022207250",
      "022207283", "022207284", "022207289"]
  | .gee => ["022207201", "022207207"]
  | .lestris => ["022207204"]
  | .legalteh => ["022207224", "022207226"]
  | .tehnogrant => ["022207244", "022207247"]
  | .sacramento => ["022207249"]
  | .divat => ["022207266"]
  | .mdtrans => ["022207277", "022207279"]

/-- The accumulator variable of a category. -/
def Acc.get (a : Acc) : Category → Int
  | .tsm => a.tsm
  | .gee => a.gee
  | .lestris => a.lestris
  | .legalteh => a.legalteh
  | .tehnogrant => a.tehnogrant
  | .sacramento => a.sacramento
  | .divat => a.divat
  | .mdtrans => a.mdtrans

/-- The integer a data row contributes: column 10 with every `.` removed,
parsed in base 10; `none` when the column is missing or does not parse. -/
def amountOf (row : List String) : Option Int :=
  match row[10]? with
  | none => none
  | some field => Atoi (replaceDots field)

/-- The accumulators after a row with identifier `item` and parsed amount `q`,
field by field. -/
def bump (a : Acc) (item : String) (q : Int) : Acc where
  sum := goAdd a.sum q
  tsm := if item ∈ Category.tsm.ids then goAdd a.tsm q else a.tsm
  gee := if item ∈ Category.gee.ids then goAdd a.gee q else a.gee
  divat := if item ∈ Category.divat.ids then goAdd a.divat q else a.divat
  mdtrans := if item ∈ Category.mdtrans.ids then goAdd a.mdtrans q else a.mdtrans
  lestris := if item ∈ Category.lestris.ids then goAdd a.lestris q else a.lestris
  legalteh := if item ∈ Category.legalteh.ids then goAdd a.legalteh q else a.legalteh
  tehnogrant := if item ∈ Category.tehnogrant.ids then goAdd a.tehnogrant q else a.tehnogrant
  sacramento := if item ∈ Category.sacramento.ids then goAdd a.sacramento q else a.sacramento

/-- Every identifier that occurs in one of the comparisons of the loop body. -/
def knownIds : List String :=
  ["022207210", "022207216", "022207217", "022207240", "022207250", "022207283",
   "022207284", "022207289", "022207201", "022207207", "022207204", "022207224",
   "022207226", "022207244", "022207247", "022207249", "022207266", "022207277",
   "022207279"]

/-- The ten decimal digit characters. -/
def decDigits : List Char := ['0', '1', '2', '3', '4', '5', '6', '7', '8', '9']

/-- The digit `0`..`9` a decimal digit character stands for. -/
def digitValue (c : Char) : Nat := c.toNat - 48

/-- The natural number a string of decimal digits denotes: the sum of
`dᵢ * 10^i`, counting the positions `i` from the last character. -/
def decValue (ds : List Char) : Nat := Nat.ofDigits 10 (ds.reverse.map digitValue)

/-- The value of an unsigned decimal numeral `i.f` (digits, a point, digits):
`i + f / 10^(number of digits of f)`; `none` for any other text. -/
def unsignedDecimalValue (cs : List Char) : Option ℚ :=
  let ip := cs.takeWhile (fun c => c != '.')
  match cs.dropWhile (fun c => c != '.') with
  | [] => none
  | _ :: fp =>
    if ip ≠ [] ∧ fp ≠ [] ∧ ∀ c ∈ ip ++ fp, c ∈ decDigits then
      some ((decValue ip : ℚ) + (decValue fp : ℚ) / 10 ^ fp.length)
    else none

/-- The rational number a string denotes when read as a decimal numeral with
an optional leading minus sign; `none` when it is not such a numeral. -/
def decimalValue (s : String) : Option ℚ :=
  match s.data with
  | [] => none
  | c :: cs =>
    if c = '-' then (unsignedDecimalValue cs).map (fun v => -v)
    else unsignedDecimalValue (c :: cs)

/-- The category table in the order of the report rows (and of the `if`
statements of the loop body). -/
def categoryTable : List Category :=
  [.tsm, .gee, .lestris, .legalteh, .tehnogrant, .sacramento, .divat, .mdtrans]

/-- The classifier in the words of the specification: the first entry of the
category table whose identifier set contains the identifier, or no category. -/
def classifySpec (item : String) : Option Category :=
  categoryTable.find? (fun c => decide (item ∈ c.ids))

/-- The characters of an integer literal after its optional sign. -/
def literalDigits : List Char → List Char
  | [] => []
  | c :: cs => if c = '-' ∨ c = '+' then cs else c :: cs

/-- A valid base-10 integer literal for a 64-bit `int`: an optional sign `+`
or `-`, then at least one decimal digit and nothing else, with a value from
`-2^63` to `2^63 - 1`. -/
def ValidIntLiteral (s : String) : Prop :=
  literalDigits s.data ≠ [] ∧ (∀ c ∈ literalDigits s.data, c ∈ decDigits) ∧
    decValue (literalDigits s.data) ≤
      (if s.data.head? = some '-' then 9223372036854775808 else 9223372036854775807)

instance (s : String) : Decidable (ValidIntLiteral s) := by
  unfold ValidIntLiteral; exact inferInstance

/-- The negative-aggregate rendering in the words of the specification:
`v = n − floor(n/6)`, integer part `floor(v/100)`, fractional part `v mod 100`
(between 0 and 99), printed as `"%d.%d"`. -/
def floorAmountSpec (n : Int) : String :=
  fmtD ((n - n / 6) / 100) ++ "." ++ fmtD ((n - n / 6) % 100)

/-- The value reported for an accumulator: the expression `n - n/6` of the
report rows. -/
def deducted (n : Int) : Int := n - n.tdiv 6

/-- The sum of the eight category accumulators, as a mathematical integer. -/
def Acc.categoryTotal (a : Acc) : Int :=
  a.tsm + a.gee + a.lestris + a.legalteh + a.tehnogrant + a.sacramento + a.divat + a.mdtrans

/-- The accumulator whose amount stands in report row `k` (rows 0 to 7 are
the categories in report order, row 8 is the Sum row). -/
def Acc.slot (a : Acc) : Nat → Int
  | 0 => a.tsm
  | 1 => a.gee
  | 2 => a.lestris
  | 3 => a.legalteh
  | 4 => a.tehnogrant
  | 5 => a.sacramento
  | 6 => a.divat
  | 7 => a.mdtrans
  | _ => a.sum

/-- The amount of report row `k`: its last field. -/
def amountAt (rep : List (List String)) (k : Nat) : Option String :=
  match rep[k]? with
  | none => none
  | some row => row.getLast?

/-- The two numbers `intToFloatString` hands to `fmt.Sprintf`:
`intgr := n / 100` and `frac := n - intgr*100`. -/
def centsSplit (n : Int) : Int × Int :=
  (n.tdiv 100, n - n.tdiv 100 * 100)

/-! # Theorems -/

/-! ## Machine arithmetic -/

theorem wrapInt_of_inIntRange {x : Int} (h : inIntRange x) : wrapInt x = x := by
  unfold inIntRange minInt maxInt at h
  unfold wrapInt
  omega

theorem inIntRange_wrapInt (x : Int) : inIntRange (wrapInt x) := by
  unfold inIntRange minInt maxInt wrapInt
  omega

theorem wrapInt_wrapInt_add (a b : Int) : wrapInt (wrapInt a + b) = wrapInt (a + b) := by
  unfold wrapInt
  omega

theorem goAdd_goAdd (a x y : Int) : goAdd (goAdd a x) y = wrapInt (a + (x + y)) := by
  unfold goAdd
  rw [wrapInt_wrapInt_add, Int.add_assoc]

theorem goAdd_right_comm (a x y : Int) : goAdd (goAdd a x) y = goAdd (goAdd a y) x := by
  rw [goAdd_goAdd, goAdd_goAdd, Int.add_comm x y]


/-- Truncating division of a negative number by a positive one. -/
theorem tdiv_of_neg {n k : Int} (hk : 0 < k) (h : n < 0) : n.tdiv k = -((-n) / k) := by
  rw [← Int.tdiv_eq_ediv (by omega) (by omega), Int.neg_tdiv, neg_neg]

/-- The deduction `n - n/6` of the report stays within the range of `int`. -/
theorem deduction_inIntRange {n : Int} (h : inIntRange n) :
    inIntRange (n.tdiv 6) ∧ inIntRange (n - n.tdiv 6) := by
  unfold inIntRange minInt maxInt at *
  rcases Int.lt_or_le n 0 with hn | hn
  · rw [tdiv_of_neg (by omega) hn]; omega
  · rw [Int.tdiv_eq_ediv hn (by omega)]; omega

/-- The intermediate values of `intToFloatString` stay within the range of
`int`, and the fraction lies strictly between -100 and 100. -/
theorem cents_split_inIntRange {n : Int} (h : inIntRange n) :
    inIntRange (n.tdiv 100) ∧ inIntRange (n.tdiv 100 * 100) ∧
      -100 < n - n.tdiv 100 * 100 ∧ n - n.tdiv 100 * 100 < 100 := by
  unfold inIntRange minInt maxInt at *
  rcases Int.lt_or_le n 0 with hn | hn
  · rw [tdiv_of_neg (by omega) hn]; omega
  · rw [Int.tdiv_eq_ediv hn (by omega)]; omega

/-- Every value `Atoi` returns lies within the range of `int`. -/
theorem Atoi_inIntRange {s : String} {v : Int} (h : Atoi s = some v) : inIntRange v := by
  unfold Atoi at h
  unfold inIntRange minInt maxInt
  split at h
  · cases h
  · split_ifs at h <;> (split at h <;> [cases h; (split_ifs at h; cases h; omega)])

/-! ## The loop body -/

/-- A row whose column 10 exists also has a column 0. -/
theorem exists_item_of_field {row : List String} {field : String}
    (h : row[10]? = some field) : ∃ item, row[0]? = some item := by
  cases row with
  | nil => simp at h
  | cons item rest => exact ⟨item, by simp⟩

/-- The loop body on a row that parses: the accumulators are bumped. -/
theorem loopBody_ok (acc : Acc) {row : List String} {item field : String} {q : Int}
    (h0 : row[0]? = some item) (h10 : row[10]? = some field)
    (hq : Atoi (replaceDots field) = some q) :
    loopBody acc row = .ok (bump acc item q) := by
  simp only [loopBody, h0, h10, hq]
  congr 1
  by_cases hk : item ∈ knownIds
  · simp only [knownIds, List.mem_cons, List.mem_singleton, List.not_mem_nil, or_false] at hk
    rcases hk with h | h | h | h | h | h | h | h | h | h | h | h | h | h | h | h | h | h | h <;>
      subst h <;> rfl
  · simp only [knownIds, List.mem_cons, List.mem_singleton, List.not_mem_nil, or_false,
      not_or] at hk
    obtain ⟨h1, h2, h3, h4, h5, h6, h7, h8, h9, h10, h11, h12, h13, h14, h15, h16, h17, h18,
      h19⟩ := hk
    simp [bump, Category.ids, *]

/-- The loop body on a row with a parsed amount. -/
theorem loopBody_of_amount (acc : Acc) {row : List String} {q : Int}
    (h : amountOf row = some q) :
    loopBody acc row = .ok (bump acc (row.headD "") q) := by
  unfold amountOf at h
  cases h10 : row[10]? with
  | none => simp [h10] at h
  | some field =>
    simp only [h10] at h
    obtain ⟨item, h0⟩ := exists_item_of_field h10
    have hd : row.headD "" = item := by
      cases row with
      | nil => simp at h0
      | cons x rest => simpa using h0
    rw [hd]
    exact loopBody_ok acc h0 h10 h

/-- The loop body on a row without a parsed amount stops the run. -/
theorem loopBody_of_no_amount (acc : Acc) {row : List String}
    (h : amountOf row = none) : ∃ e, loopBody acc row = .error e := by
  unfold amountOf at h
  unfold loopBody
  cases h0 : row[0]? with
  | none => exact ⟨_, rfl⟩
  | some item =>
    cases h10 : row[10]? with
    | none => exact ⟨_, rfl⟩
    | some field =>
      simp only [h10] at h
      simp only [h]
      exact ⟨_, rfl⟩

/-- Two bumps commute: every accumulator is updated by wrap-around addition. -/
theorem bump_comm (a : Acc) (i1 i2 : String) (q1 q2 : Int) :
    bump (bump a i1 q1) i2 q2 = bump (bump a i2 q2) i1 q1 := by
  simp only [bump, Acc.mk.injEq]
  refine ⟨goAdd_right_comm _ _ _, ?_, ?_, ?_, ?_, ?_, ?_, ?_, ?_⟩ <;>
    (split_ifs <;> first | rfl | exact goAdd_right_comm _ _ _)

/-! ## The loop -/

/-- Past index 0 the loop does not look at the index. -/
theorem calculateLoop_succ (rows : List (List String)) :
    ∀ (i : Nat) (acc : Acc), calculateLoop (i + 1) rows acc = calculateLoop 1 rows acc := by
  induction rows with
  | nil => intro i acc; rfl
  | cons row rest ih =>
    intro i acc
    simp only [calculateLoop, Nat.add_one_ne_zero, if_false, Nat.reduceAdd, OfNat.ofNat_ne_zero]
    cases loopBody acc row with
    | error e => rfl
    | ok acc' => simp only [ih (i + 1) acc', ih 1 acc']

/-- The first row is skipped. -/
theorem calculateLoop_zero_cons (h : List String) (d : List (List String)) (acc : Acc) :
    calculateLoop 0 (h :: d) acc = calculateLoop 1 d acc := by
  simp [calculateLoop]

/-- The whole loop is the loop over the data rows `rows.tail`. -/
theorem calculateLoop_zero (rows : List (List String)) (acc : Acc) :
    calculateLoop 0 rows acc = calculateLoop 1 rows.tail acc := by
  cases rows with
  | nil => rfl
  | cons h d => exact calculateLoop_zero_cons h d acc

/-- One step of the loop over the data rows. -/
theorem calculateLoop_one_cons (row : List String) (rest : List (List String)) (acc : Acc) :
    calculateLoop 1 (row :: rest) acc =
      match loopBody acc row with
      | .error e => .error e
      | .ok acc' => calculateLoop 1 rest acc' := by
  simp only [calculateLoop, OfNat.ofNat_ne_zero, if_false, Nat.reduceAdd]
  cases loopBody acc row with
  | error e => rfl
  | ok acc' => exact calculateLoop_succ rest 1 acc'

/-- When every data row has a parsed amount the loop ends normally and the
grand-total accumulator holds the wrapped sum of the amounts. -/
theorem calculateLoop_sum (d : List (List String)) :
    ∀ (vs : List Int) (acc : Acc), inIntRange acc.sum → d.map amountOf = vs.map some →
      ∃ acc', calculateLoop 1 d acc = .ok acc' ∧ acc'.sum = wrapInt (acc.sum + vs.sum) := by
  induction d with
  | nil =>
    intro vs acc hr h
    cases vs with
    | nil =>
      refine ⟨acc, rfl, ?_⟩
      rw [List.sum_nil, Int.add_zero, wrapInt_of_inIntRange hr]
    | cons v vs => simp at h
  | cons row rest ih =>
    intro vs acc _ h
    cases vs with
    | nil => simp at h
    | cons v vs =>
      simp only [List.map_cons, List.cons.injEq] at h
      have hb := loopBody_of_amount acc h.1
      obtain ⟨acc', hloop, hsum⟩ := ih vs (bump acc (row.headD "") v) (inIntRange_wrapInt _) h.2
      refine ⟨acc', ?_, ?_⟩
      · rw [calculateLoop_one_cons, hb]; exact hloop
      · rw [hsum]
        show wrapInt (goAdd acc.sum v + vs.sum) = _
        rw [List.sum_cons, goAdd, wrapInt_wrapInt_add, Int.add_assoc]

/-- Permuting the data rows changes neither whether the loop ends normally
nor the accumulators it ends with. -/
theorem calculateLoop_perm {d1 d2 : List (List String)} (h : d1.Perm d2) :
    ∀ acc : Acc, (calculateLoop 1 d1 acc).toOption = (calculateLoop 1 d2 acc).toOption := by
  induction h with
  | nil => intro acc; rfl
  | cons x _ ih =>
    intro acc
    rw [calculateLoop_one_cons, calculateLoop_one_cons]
    cases loopBody acc x with
    | error e => rfl
    | ok acc' => exact ih acc'
  | swap x y l =>
    intro acc
    simp only [calculateLoop_one_cons]
    cases hx : amountOf x with
    | none =>
      obtain ⟨e, he⟩ := loopBody_of_no_amount acc hx
      rw [he]
      cases hy : amountOf y with
      | none =>
        obtain ⟨e2, he2⟩ := loopBody_of_no_amount acc hy
        rw [he2]
        rfl
      | some qy =>
        obtain ⟨e2, he2⟩ := loopBody_of_no_amount (bump acc (y.headD "") qy) hx
        rw [loopBody_of_amount acc hy]
        simp only [he2]
        rfl
    | some qx =>
      cases hy : amountOf y with
      | none =>
        obtain ⟨e, he⟩ := loopBody_of_no_amount acc hy
        obtain ⟨e2, he2⟩ := loopBody_of_no_amount (bump acc (x.headD "") qx) hy
        rw [he, loopBody_of_amount acc hx]
        simp only [he2]
        rfl
      | some qy =>
        simp only [loopBody_of_amount _ hx, loopBody_of_amount _ hy]
        rw [bump_comm]
  | trans _ _ ih1 ih2 => intro acc; rw [ih1 acc, ih2 acc]

/-- The identifier sets of two different categories have no common element. -/
theorem ids_disjoint : ∀ c c' : Category, c ≠ c' → ∀ x ∈ c.ids, x ∉ c'.ids := by
  decide

/-- A bump moves the accumulator of a category that contains the identifier. -/
theorem bump_get_of_mem (acc : Acc) (q : Int) {item : String} {c : Category}
    (h : item ∈ c.ids) : (bump acc item q).get c = goAdd (acc.get c) q := by
  cases c <;> simp only [Acc.get, bump, if_pos h]

/-- A bump keeps the accumulator of a category that lacks the identifier. -/
theorem bump_get_of_not_mem (acc : Acc) (q : Int) {item : String} {c : Category}
    (h : item ∉ c.ids) : (bump acc item q).get c = acc.get c := by
  cases c <;> simp only [Acc.get, bump, if_neg h]

/-! ## Aggregation -/

/-- C1 (grand total).  When every data row (every row after the first) has a
column 10 that parses, to the integers `vs`, and their sum `S` fits a 64-bit
`int`, `calculate` returns and the last row of the report is the `Sum` row
with amount `intToFloatString (S - S/6)`; the amount of a row is the parsed
column 10 alone. -/
theorem grand_total (rows clients : List (List String)) (vs : List Int)
    (hparse : rows.tail.map amountOf = vs.map some) (hS : inIntRange vs.sum) :
    ∃ rep, calculate rows clients = .ok rep ∧
      rep.getLast? =
        some ["", "", "", "Sum", "", intToFloatString (vs.sum - vs.sum.tdiv 6)] := by
  obtain ⟨acc, hloop, hsum⟩ :=
    calculateLoop_sum rows.tail vs Acc.zero (by decide) hparse
  have hs : acc.sum = vs.sum := by
    rw [hsum]
    show wrapInt (0 + vs.sum) = vs.sum
    rw [Int.zero_add, wrapInt_of_inIntRange hS]
  refine ⟨report acc, ?_, ?_⟩
  · simp only [calculate, calculateLoop_zero, hloop]
  · simp only [report, hs, List.getLast?_cons_cons, List.getLast?_singleton]

/-- Witness of `grand_total`: a header, an uncategorised row of 12.50 and a
TSM row of 3.25. -/
theorem grand_total_witness :
    ∃ rep, calculate
        [["id"], ["000000000", "", "", "", "", "", "", "", "", "", "12.50"],
          ["022207210", "", "", "", "", "", "", "", "", "", "3.25"]] [] = .ok rep ∧
      rep.getLast? = some ["", "", "", "Sum", "", "13.13"] :=
  grand_total
    [["id"], ["000000000", "", "", "", "", "", "", "", "", "", "12.50"],
      ["022207210", "", "", "", "", "", "", "", "", "", "3.25"]] [] [1250, 325]
    (by decide) (by decide)

/-- C2 (order independence).  For a header `h` and two lists of data rows
that are permutations of each other, the two runs of `calculate` either both
stop without a report or both return the same report. -/
theorem order_independence (h : List String) (d1 d2 clients : List (List String))
    (hp : d1.Perm d2) :
    (∃ e1 e2, calculate (h :: d1) clients = .error e1 ∧
        calculate (h :: d2) clients = .error e2) ∨
      (∃ rep, calculate (h :: d1) clients = .ok rep ∧
        calculate (h :: d2) clients = .ok rep) := by
  have hperm := calculateLoop_perm hp Acc.zero
  simp only [calculate, calculateLoop_zero_cons]
  cases h1 : calculateLoop 1 d1 Acc.zero with
  | error e1 =>
    cases h2 : calculateLoop 1 d2 Acc.zero with
    | error e2 => exact Or.inl ⟨e1, e2, rfl, rfl⟩
    | ok a2 => rw [h1, h2] at hperm; cases hperm
  | ok a1 =>
    cases h2 : calculateLoop 1 d2 Acc.zero with
    | error e2 => rw [h1, h2] at hperm; cases hperm
    | ok a2 =>
      rw [h1, h2] at hperm
      have ha : a1 = a2 := by simpa [Except.toOption] using hperm
      subst ha
      exact Or.inr ⟨report a1, rfl, rfl⟩

/-- Witness of `order_independence`: two data rows in both orders. -/
theorem order_independence_witness :
    (∃ e1 e2, calculate
          [["id"], ["022207204", "", "", "", "", "", "", "", "", "", "2.99"],
            ["022207266", "", "", "", "", "", "", "", "", "", "0.40"]] [] = .error e1 ∧
        calculate
          [["id"], ["022207266", "", "", "", "", "", "", "", "", "", "0.40"],
            ["022207204", "", "", "", "", "", "", "", "", "", "2.99"]] [] = .error e2) ∨
      (∃ rep, calculate
          [["id"], ["022207204", "", "", "", "", "", "", "", "", "", "2.99"],
            ["022207266", "", "", "", "", "", "", "", "", "", "0.40"]] [] = .ok rep ∧
        calculate
          [["id"], ["022207266", "", "", "", "", "", "", "", "", "", "0.40"],
            ["022207204", "", "", "", "", "", "", "", "", "", "2.99"]] [] = .ok rep) :=
  order_independence ["id"]
    [["022207204", "", "", "", "", "", "", "", "", "", "2.99"],
      ["022207266", "", "", "", "", "", "", "", "", "", "0.40"]]
    [["022207266", "", "", "", "", "", "", "", "", "", "0.40"],
      ["022207204", "", "", "", "", "", "", "", "", "", "2.99"]] []
    (List.Perm.swap _ _ _)

/-- C3, as stated, fails: one TSM row of 92233720368547758.07 puts the TSM
accumulator at the largest `int`, and a further TSM row of 0.01 leaves it at
the smallest `int` and not at the old value plus 1. -/
theorem categorised_row_overflow :
    loopBody Acc.zero
        ["022207210", "", "", "", "", "", "", "", "", "", "92233720368547758.07"] =
        .ok ⟨9223372036854775807, 9223372036854775807, 0, 0, 0, 0, 0, 0, 0⟩ ∧
      loopBody ⟨9223372036854775807, 9223372036854775807, 0, 0, 0, 0, 0, 0, 0⟩
        ["022207210", "", "", "", "", "", "", "", "", "", "0.01"] =
        .ok ⟨-9223372036854775808, -9223372036854775808, 0, 0, 0, 0, 0, 0, 0⟩ ∧
      Atoi (replaceDots "0.01") = some 1 ∧
      (-9223372036854775808 : Int) ≠ 9223372036854775807 + 1 := by
  refine ⟨rfl, rfl, rfl, by decide⟩

/-- C3, amended (categorised row).  The loop body on a row whose identifier
(column 0) is one of the identifiers of category `c` and whose column 10
parses to `q`, when `old + q` fits a 64-bit `int` (no overflow): the
accumulator of `c` becomes `old + q` and the accumulators of the seven other
categories keep their values. -/
theorem categorised_row (acc : Acc) (row : List String) (item field : String) (q : Int)
    (c : Category) (h0 : row[0]? = some item) (h10 : row[10]? = some field)
    (hq : Atoi (replaceDots field) = some q) (hc : item ∈ c.ids)
    (hfit : inIntRange (acc.get c + q)) :
    ∃ acc', loopBody acc row = .ok acc' ∧
      acc'.get c = acc.get c + q ∧
      ∀ c', c' ≠ c → acc'.get c' = acc.get c' := by
  refine ⟨bump acc item q, loopBody_ok acc h0 h10 hq, ?_, ?_⟩
  · rw [bump_get_of_mem acc q hc, goAdd, wrapInt_of_inIntRange hfit]
  · intro c' hne
    exact bump_get_of_not_mem acc q (ids_disjoint c c' (Ne.symm hne) item hc)

/-- Witness of `categorised_row`: a LESTRIS row of 2.99 on fresh accumulators. -/
theorem categorised_row_witness :
    ∃ acc', loopBody Acc.zero
        ["022207204", "", "", "", "", "", "", "", "", "", "2.99"] = .ok acc' ∧
      acc'.get Category.lestris = Acc.zero.get Category.lestris + 299 ∧
      ∀ c', c' ≠ Category.lestris → acc'.get c' = Acc.zero.get c' :=
  categorised_row Acc.zero ["022207204", "", "", "", "", "", "", "", "", "", "2.99"]
    "022207204" "2.99" 299 Category.lestris (by decide) (by decide) (by decide) (by decide)
    (by decide)

/-- C4, as stated, fails: one uncategorised row of 92233720368547758.07 puts
the grand total at the largest `int`, and a further uncategorised row of 0.01
leaves it at the smallest `int`: it does not increase by 1. -/
theorem uncategorised_row_overflow :
    (∀ c : Category, "000000000" ∉ c.ids) ∧
      loopBody Acc.zero
        ["000000000", "", "", "", "", "", "", "", "", "", "92233720368547758.07"] =
        .ok ⟨9223372036854775807, 0, 0, 0, 0, 0, 0, 0, 0⟩ ∧
      loopBody ⟨9223372036854775807, 0, 0, 0, 0, 0, 0, 0, 0⟩
        ["000000000", "", "", "", "", "", "", "", "", "", "0.01"] =
        .ok ⟨-9223372036854775808, 0, 0, 0, 0, 0, 0, 0, 0⟩ ∧
      Atoi (replaceDots "0.01") = some 1 ∧
      (-9223372036854775808 : Int) ≠ 9223372036854775807 + 1 := by
  refine ⟨by decide, rfl, rfl, rfl, by decide⟩

/-- C4, amended (uncategorised row).  The loop body on a row whose identifier
(column 0) is in none of the eight identifier sets and whose column 10 parses
to `q`, when `old + q` fits a 64-bit `int` (no overflow): all eight category
accumulators keep their values and the grand-total accumulator becomes
exactly `old + q`. -/
theorem uncategorised_row (acc : Acc) (row : List String) (item field : String) (q : Int)
    (h0 : row[0]? = some item) (h10 : row[10]? = some field)
    (hq : Atoi (replaceDots field) = some q) (hnone : ∀ c : Category, item ∉ c.ids)
    (hfit : inIntRange (acc.sum + q)) :
    ∃ acc', loopBody acc row = .ok acc' ∧
      (∀ c, acc'.get c = acc.get c) ∧
      acc'.sum = acc.sum + q := by
  refine ⟨bump acc item q, loopBody_ok acc h0 h10 hq, ?_, ?_⟩
  · intro c
    exact bump_get_of_not_mem acc q (hnone c)
  · show goAdd acc.sum q = acc.sum + q
    rw [goAdd, wrapInt_of_inIntRange hfit]

/-- Witness of `uncategorised_row`: an unknown identifier with amount 12.50. -/
theorem uncategorised_row_witness :
    ∃ acc', loopBody Acc.zero
        ["000000000", "", "", "", "", "", "", "", "", "", "12.50"] = .ok acc' ∧
      (∀ c, acc'.get c = Acc.zero.get c) ∧
      acc'.sum = Acc.zero.sum + 1250 :=
  uncategorised_row Acc.zero ["000000000", "", "", "", "", "", "", "", "", "", "12.50"]
    "000000000" "12.50" 1250 (by decide) (by decide) (by decide) (by decide) (by decide)

/-! ## Report -/

/-- C5 (report shape).  Whenever `calculate` returns, the report is exactly
nine rows, without a header row: eight rows `[label, ":", amount]` with the
labels TSM, GEE, LESTRIS, LEGAL TEHNOLOGIES, TEHNOGRANT, SACRAMENTO, DIVAT,
MDTRANS in this order, then the row `["", "", "", "Sum", "", amount]`. -/
theorem report_shape (rows clients rep : List (List String))
    (h : calculate rows clients = .ok rep) :
    rep.length = 9 ∧
      ∃ a1 a2 a3 a4 a5 a6 a7 a8 s : String,
        rep = [["TSM", ":", a1], ["GEE", ":", a2], ["LESTRIS", ":", a3],
          ["LEGAL TEHNOLOGIES", ":", a4], ["TEHNOGRANT", ":", a5], ["SACRAMENTO", ":", a6],
          ["DIVAT", ":", a7], ["MDTRANS", ":", a8], ["", "", "", "Sum", "", s]] := by
  unfold calculate at h
  cases hl : calculateLoop 0 rows Acc.zero with
  | error e => rw [hl] at h; cases h
  | ok a =>
    rw [hl] at h
    injection h with h
    subst h
    exact ⟨rfl, _, _, _, _, _, _, _, _, _, rfl⟩

/-- Witness of `report_shape`: the report of a table with one GEE row. -/
theorem report_shape_witness :
    calculate [["id"], ["022207201", "", "", "", "", "", "", "", "", "", "0.40"]] [] =
        .ok [["TSM", ":", "0.0"], ["GEE", ":", "0.34"], ["LESTRIS", ":", "0.0"],
          ["LEGAL TEHNOLOGIES", ":", "0.0"], ["TEHNOGRANT", ":", "0.0"],
          ["SACRAMENTO", ":", "0.0"], ["DIVAT", ":", "0.0"], ["MDTRANS", ":", "0.0"],
          ["", "", "", "Sum", "", "0.34"]] ∧
      ([["TSM", ":", "0.0"], ["GEE", ":", "0.34"], ["LESTRIS", ":", "0.0"],
          ["LEGAL TEHNOLOGIES", ":", "0.0"], ["TEHNOGRANT", ":", "0.0"],
          ["SACRAMENTO", ":", "0.0"], ["DIVAT", ":", "0.0"], ["MDTRANS", ":", "0.0"],
          ["", "", "", "Sum", "", "0.34"]].length = 9 ∧
        ∃ a1 a2 a3 a4 a5 a6 a7 a8 s : String,
          [["TSM", ":", "0.0"], ["GEE", ":", "0.34"], ["LESTRIS", ":", "0.0"],
            ["LEGAL TEHNOLOGIES", ":", "0.0"], ["TEHNOGRANT", ":", "0.0"],
            ["SACRAMENTO", ":", "0.0"], ["DIVAT", ":", "0.0"], ["MDTRANS", ":", "0.0"],
            ["", "", "", "Sum", "", "0.34"]] =
          [["TSM", ":", a1], ["GEE", ":", a2], ["LESTRIS", ":", a3],
            ["LEGAL TEHNOLOGIES", ":", a4], ["TEHNOGRANT", ":", a5], ["SACRAMENTO", ":", a6],
            ["DIVAT", ":", a7], ["MDTRANS", ":", a8], ["", "", "", "Sum", "", s]]) :=
  ⟨rfl, report_shape [["id"], ["022207201", "", "", "", "", "", "", "", "", "", "0.40"]] []
    [["TSM", ":", "0.0"], ["GEE", ":", "0.34"], ["LESTRIS", ":", "0.0"],
      ["LEGAL TEHNOLOGIES", ":", "0.0"], ["TEHNOGRANT", ":", "0.0"],
      ["SACRAMENTO", ":", "0.0"], ["DIVAT", ":", "0.0"], ["MDTRANS", ":", "0.0"],
      ["", "", "", "Sum", "", "0.34"]] rfl⟩


/-! ## Decimal digits -/

theorem digitOf_of_mem {c : Char} (h : c ∈ decDigits) : digitOf c = some (digitValue c) := by
  simp only [decDigits, List.mem_cons, List.mem_singleton, List.not_mem_nil, or_false] at h
  rcases h with h | h | h | h | h | h | h | h | h | h <;> subst h <;> rfl

theorem digitValue_lt_of_mem {c : Char} (h : c ∈ decDigits) : digitValue c < 10 := by
  simp only [decDigits, List.mem_cons, List.mem_singleton, List.not_mem_nil, or_false] at h
  rcases h with h | h | h | h | h | h | h | h | h | h <;> subst h <;> decide

theorem digitChar_digitValue {c : Char} (h : c ∈ decDigits) :
    Nat.digitChar (digitValue c) = c := by
  simp only [decDigits, List.mem_cons, List.mem_singleton, List.not_mem_nil, or_false] at h
  rcases h with h | h | h | h | h | h | h | h | h | h <;> subst h <;> rfl

theorem digitChar_mem {d : Nat} (h : d < 10) : Nat.digitChar d ∈ decDigits := by
  interval_cases d <;> decide

theorem digitValue_digitChar {d : Nat} (h : d < 10) : digitValue (Nat.digitChar d) = d := by
  interval_cases d <;> rfl

theorem ne_dot_of_mem {c : Char} (h : c ∈ decDigits) : c ≠ '.' := by
  intro hc; subst hc; revert h; decide

theorem ne_minus_of_mem {c : Char} (h : c ∈ decDigits) : c ≠ '-' := by
  intro hc; subst hc; revert h; decide

theorem ne_plus_of_mem {c : Char} (h : c ∈ decDigits) : c ≠ '+' := by
  intro hc; subst hc; revert h; decide

theorem digitValue_eq_zero {c : Char} (h : c ∈ decDigits) (h0 : digitValue c = 0) :
    c = '0' := by
  rw [← digitChar_digitValue h, h0]; rfl

/-- Appending a digit multiplies the value by ten and adds the digit. -/
theorem decValue_append_singleton (ds : List Char) (c : Char) :
    decValue (ds ++ [c]) = 10 * decValue ds + digitValue c := by
  simp only [decValue, List.reverse_append, List.reverse_singleton, List.singleton_append,
    List.map_cons, Nat.ofDigits_cons]
  omega

theorem decValue_nil : decValue [] = 0 := rfl

/-- Prepending a digit adds the digit at the top position. -/
theorem decValue_cons (c : Char) (ds : List Char) :
    decValue (c :: ds) = digitValue c * 10 ^ ds.length + decValue ds := by
  simp only [decValue, List.reverse_cons, List.map_append, List.map_cons, List.map_nil,
    Nat.ofDigits_append, Nat.ofDigits_singleton, List.length_map, List.length_reverse]
  ring

/-- The digit loop on a string of digits: Horner evaluation from the start
value. -/
theorem parseUint_digits (ds : List Char) :
    ∀ n : Nat, (∀ c ∈ ds, c ∈ decDigits) →
      parseUint ds n = some (n * 10 ^ ds.length + decValue ds) := by
  induction ds with
  | nil => intro n _; simp [parseUint, decValue_nil]
  | cons c cs ih =>
    intro n h
    have hc : c ∈ decDigits := h c (List.mem_cons_self c cs)
    have hcs : ∀ x ∈ cs, x ∈ decDigits := fun x hx => h x (List.mem_cons_of_mem c hx)
    simp only [parseUint, digitOf_of_mem hc, ih _ hcs, decValue_cons, List.length_cons,
      Option.some.injEq]
    ring

/-! ## Decimal rendering -/

/-- With enough fuel the digit generator of `Nat.repr` puts the digits of `n`
in front of the accumulator. -/
theorem toDigitsCore_eq (fuel : Nat) :
    ∀ (n : Nat) (ds : List Char), n < fuel →
      Nat.toDigitsCore 10 fuel n ds = Nat.toDigits 10 n ++ ds := by
  induction fuel using Nat.strong_induction_on with
  | _ fuel ih =>
    intro n ds hn
    cases fuel with
    | zero => omega
    | succ fuel =>
      unfold Nat.toDigits
      simp only [Nat.toDigitsCore]
      by_cases h0 : n / 10 = 0
      · simp [h0]
      · simp only [h0, if_false]
        have hlt : n / 10 < n := by omega
        rw [ih fuel (by omega) (n / 10) _ (by omega)]
        obtain ⟨m, rfl⟩ : ∃ m, n = m + 1 := ⟨n - 1, by omega⟩
        rw [ih (m + 1) (by omega) ((m + 1) / 10) _ hlt]
        simp

/-- A number below ten renders as its digit. -/
theorem toDigits_of_lt {n : Nat} (h : n < 10) : Nat.toDigits 10 n = [Nat.digitChar n] := by
  interval_cases n <;> rfl

/-- A number from ten on renders as the rendering of `n / 10` followed by the
digit of `n % 10`. -/
theorem toDigits_of_ge {n : Nat} (h : 10 ≤ n) :
    Nat.toDigits 10 n = Nat.toDigits 10 (n / 10) ++ [Nat.digitChar (n % 10)] := by
  have h0 : n / 10 ≠ 0 := by omega
  conv_lhs => unfold Nat.toDigits
  simp only [Nat.toDigitsCore, h0, if_false]
  exact toDigitsCore_eq n (n / 10) _ (by omega)

/-- The rendering of `10 * m + d` for `m > 0` and a digit `d`. -/
theorem toDigits_mul_add {m d : Nat} (hm : 0 < m) (hd : d < 10) :
    Nat.toDigits 10 (10 * m + d) = Nat.toDigits 10 m ++ [Nat.digitChar d] := by
  rw [toDigits_of_ge (by omega)]
  have h1 : (10 * m + d) / 10 = m := by omega
  have h2 : (10 * m + d) % 10 = d := by omega
  rw [h1, h2]

/-- Every character of a rendering is a decimal digit. -/
theorem toDigits_mem (n : Nat) : ∀ c ∈ Nat.toDigits 10 n, c ∈ decDigits := by
  induction n using Nat.strong_induction_on with
  | _ n ih =>
    intro c hc
    by_cases h : n < 10
    · rw [toDigits_of_lt h, List.mem_singleton] at hc
      rw [hc]; exact digitChar_mem h
    · rw [toDigits_of_ge (by omega), List.mem_append, List.mem_singleton] at hc
      rcases hc with hc | hc
      · exact ih (n / 10) (by omega) c hc
      · rw [hc]; exact digitChar_mem (Nat.mod_lt _ (by omega))

/-- A string of digits with a non-zero first digit denotes a positive number. -/
theorem decValue_pos {c : Char} {cs : List Char} (hc : c ∈ decDigits) (h0 : c ≠ '0') :
    0 < decValue (c :: cs) := by
  rw [decValue_cons]
  have : digitValue c ≠ 0 := fun h => h0 (digitValue_eq_zero hc h)
  have : 0 < digitValue c * 10 ^ cs.length :=
    Nat.mul_pos (Nat.pos_of_ne_zero this) (by positivity)
  omega

/-- A non-empty digit string without a superfluous leading zero is the
rendering of the number it denotes. -/
theorem toDigits_decValue (ds : List Char) :
    ds ≠ [] → (∀ c ∈ ds, c ∈ decDigits) → (ds.head? = some '0' → ds = ['0']) →
      Nat.toDigits 10 (decValue ds) = ds := by
  induction ds using List.reverseRecOn with
  | nil => intro h; exact absurd rfl h
  | append_singleton init last ih =>
    intro _ hd hlead
    have hlast : last ∈ decDigits := hd last (by simp)
    rw [decValue_append_singleton]
    cases init with
    | nil =>
      simp only [decValue_nil, Nat.mul_zero, Nat.zero_add, List.nil_append]
      rw [toDigits_of_lt (digitValue_lt_of_mem hlast), digitChar_digitValue hlast]
    | cons c cs =>
      have hc : c ∈ decDigits := hd c (by simp)
      have hc0 : c ≠ '0' := by
        intro h
        subst h
        have := hlead (by simp)
        simp at this
      have hinit : ∀ x ∈ c :: cs, x ∈ decDigits := fun x hx => hd x (by simp at hx ⊢; tauto)
      rw [toDigits_mul_add (decValue_pos hc hc0) (digitValue_lt_of_mem hlast),
        ih (by simp) hinit (by intro h; simp at h; exact absurd h hc0),
        digitChar_digitValue hlast]

/-! ## Formatting -/

/-- The `%d` rendering of a natural number is its plain decimal rendering. -/
theorem fmtD_natCast (n : Nat) : fmtD (n : Int) = Nat.repr n := by
  unfold fmtD
  rw [if_neg (by omega), Int.natAbs_ofNat]

/-- The function `intToFloatString` on a natural number: quotient and remainder by 100. -/
theorem intToFloatString_natCast (n : Nat) :
    intToFloatString (n : Int) = Nat.repr (n / 100) ++ "." ++ Nat.repr (n % 100) := by
  unfold intToFloatString
  have h1 : (n : Int).tdiv 100 = ((n / 100 : Nat) : Int) := by
    rw [Int.tdiv_eq_ediv (by omega) (by omega)]; norm_cast
  have h2 : (n : Int) - ((n / 100 : Nat) : Int) * 100 = ((n % 100 : Nat) : Int) := by
    omega
  simp only [h1, h2, fmtD_natCast]

/-- The deducted amount of a natural number: quotient and remainder by 100 of
`n - n/6`, both rendered without padding. -/
theorem deducted_amount_natCast (n : Nat) :
    intToFloatString ((n : Int) - (n : Int).tdiv 6) =
      Nat.repr ((n - n / 6) / 100) ++ "." ++ Nat.repr ((n - n / 6) % 100) := by
  have h : (n : Int) - (n : Int).tdiv 6 = ((n - n / 6 : Nat) : Int) := by
    rw [Int.tdiv_eq_ediv (by omega) (by omega)]
    omega
  rw [h, intToFloatString_natCast]

/-- C8 (single-digit fraction).  For `n ≥ 0` the result of `intToFloatString`
is the decimal rendering of `n / 100`, which consists of digits only, then a
point, then a single digit when `n mod 100 < 10` (no leading zero is
written) and two digits otherwise; 109 gives "1.9" and 9900 gives "99.0". -/
theorem single_digit_fraction (n : Nat) :
    intToFloatString (n : Int) =
        Nat.repr (n / 100) ++ "." ++
          String.mk (if n % 100 < 10 then [Nat.digitChar (n % 100)]
            else [Nat.digitChar (n % 100 / 10), Nat.digitChar (n % 100 % 10)]) ∧
      (∀ c ∈ (Nat.repr (n / 100)).data, c ∈ decDigits) ∧
      (∀ c ∈ (if n % 100 < 10 then [Nat.digitChar (n % 100)]
          else [Nat.digitChar (n % 100 / 10), Nat.digitChar (n % 100 % 10)]),
        c ∈ decDigits) ∧
      intToFloatString 109 = "1.9" ∧ intToFloatString 9900 = "99.0" := by
  have hfrac : Nat.toDigits 10 (n % 100) =
      if n % 100 < 10 then [Nat.digitChar (n % 100)]
      else [Nat.digitChar (n % 100 / 10), Nat.digitChar (n % 100 % 10)] := by
    by_cases h : n % 100 < 10
    · rw [if_pos h, toDigits_of_lt h]
    · rw [if_neg h, toDigits_of_ge (show 10 ≤ n % 100 by omega),
        toDigits_of_lt (show n % 100 / 10 < 10 by omega)]
      rfl
  refine ⟨?_, toDigits_mem _, ?_, rfl, rfl⟩
  · rw [intToFloatString_natCast, ← hfrac]
    rfl
  · rw [← hfrac]
    exact toDigits_mem _

/-! ## Parsing -/

/-- Removing the points of `a.bc` leaves the digits `abc`. -/
theorem replaceDots_money (a : List Char) (b c : Char) (ha : ∀ x ∈ a, x ∈ decDigits)
    (hb : b ∈ decDigits) (hc : c ∈ decDigits) :
    replaceDots (String.mk (a ++ ['.', b, c])) = String.mk (a ++ [b, c]) := by
  unfold replaceDots
  congr 1
  have h1 : a.filter (fun x => x != '.') = a :=
    List.filter_eq_self.mpr (fun x hx => by simpa using ne_dot_of_mem (ha x hx))
  have hb' : (b != '.') = true := by simpa using ne_dot_of_mem hb
  have hc' : (c != '.') = true := by simpa using ne_dot_of_mem hc
  simp [List.filter_append, h1, List.filter_cons, hb', hc']

/-- The result of `Atoi` on a non-empty string of digits whose value fits an `int`. -/
theorem Atoi_digits (ds : List Char) (hne : ds ≠ []) (hd : ∀ x ∈ ds, x ∈ decDigits)
    (hr : decValue ds ≤ 9223372036854775807) :
    Atoi (String.mk ds) = some ((decValue ds : Nat) : Int) := by
  cases ds with
  | nil => exact absurd rfl hne
  | cons x xs =>
    have hx : x ∈ decDigits := hd x (List.mem_cons_self x xs)
    have hp := parseUint_digits (x :: xs) 0 hd
    rw [Nat.zero_mul, Nat.zero_add] at hp
    simp only [Atoi, if_neg (ne_minus_of_mem hx), if_neg (ne_plus_of_mem hx), hp, if_pos hr]

/-- The value of `abc` from the value of `a` and the digits `b`, `c`. -/
theorem decValue_money (a : List Char) (b c : Char) :
    decValue (a ++ [b, c]) = 100 * decValue a + 10 * digitValue b + digitValue c := by
  have h : a ++ [b, c] = (a ++ [b]) ++ [c] := by simp
  rw [h, decValue_append_singleton, decValue_append_singleton]
  omega

/-- Parsing `a.bc` after the points are removed. -/
theorem parse_money_core (a : List Char) (b c : Char) (_hne : a ≠ [])
    (ha : ∀ x ∈ a, x ∈ decDigits) (hb : b ∈ decDigits) (hc : c ∈ decDigits)
    (hr : 100 * decValue a + 10 * digitValue b + digitValue c ≤ 9223372036854775807) :
    Atoi (replaceDots (String.mk (a ++ ['.', b, c]))) =
      some ((100 * decValue a + 10 * digitValue b + digitValue c : Nat) : Int) := by
  have hd : ∀ x ∈ a ++ [b, c], x ∈ decDigits := by
    intro x hx
    simp only [List.mem_append, List.mem_cons, List.mem_singleton, List.not_mem_nil,
      or_false] at hx
    rcases hx with hx | hx | hx
    · exact ha x hx
    · rw [hx]; exact hb
    · rw [hx]; exact hc
  rw [replaceDots_money a b c ha hb hc,
    Atoi_digits _ (by simp) hd (by rw [decValue_money]; exact hr), decValue_money]

/-- C10 (money parser).  For a text `a.bc` with `a` a non-empty string of
decimal digits and `b`, `c` decimal digits, whose value in minor units fits a
64-bit `int`, removing every `.` and parsing in base 10 returns exactly
`100 * value a + 10 * b + c`, an integer; "1.99" gives 199. -/
theorem money_parsing (a : List Char) (b c : Char) (hne : a ≠ [])
    (ha : ∀ x ∈ a, x ∈ decDigits) (hb : b ∈ decDigits) (hc : c ∈ decDigits)
    (hr : 100 * decValue a + 10 * digitValue b + digitValue c ≤ 9223372036854775807) :
    Atoi (replaceDots (String.mk (a ++ ['.', b, c]))) =
        some ((100 * decValue a + 10 * digitValue b + digitValue c : Nat) : Int) ∧
      Atoi (replaceDots "1.99") = some 199 := by
  exact ⟨parse_money_core a b c hne ha hb hc hr, rfl⟩

/-- Witness of `money_parsing`: the text "12.34". -/
theorem money_parsing_witness :
    Atoi (replaceDots (String.mk (['1', '2'] ++ ['.', '3', '4']))) =
        some ((100 * decValue ['1', '2'] + 10 * digitValue '3' + digitValue '4' : Nat) : Int) ∧
      Atoi (replaceDots "1.99") = some 199 :=
  money_parsing ['1', '2'] '3' '4' (by decide) (by decide) (by decide) (by decide) (by decide)

/-- C7 (round trip).  For a money string `a.bc` with `a` a non-empty string
of decimal digits without a superfluous leading zero, `b` and `c` decimal
digits, a value that fits a 64-bit `int`, and a first fractional digit `b`
other than `0`, parsing (remove the point, read base 10) and formatting with
`intToFloatString` gives the string back. -/
theorem round_trip (a : List Char) (b c : Char) (hne : a ≠ [])
    (ha : ∀ x ∈ a, x ∈ decDigits) (hlead : a.head? = some '0' → a = ['0'])
    (hb : b ∈ decDigits) (hc : c ∈ decDigits) (hb0 : b ≠ '0')
    (hr : 100 * decValue a + 10 * digitValue b + digitValue c ≤ 9223372036854775807) :
    ∃ n : Int, Atoi (replaceDots (String.mk (a ++ ['.', b, c]))) = some n ∧
      intToFloatString n = String.mk (a ++ ['.', b, c]) := by
  refine ⟨_, parse_money_core a b c hne ha hb hc hr, ?_⟩
  have hbv : digitValue b < 10 := digitValue_lt_of_mem hb
  have hcv : digitValue c < 10 := digitValue_lt_of_mem hc
  have hbpos : 0 < digitValue b :=
    Nat.pos_of_ne_zero (fun h => hb0 (digitValue_eq_zero hb h))
  have hq : (100 * decValue a + 10 * digitValue b + digitValue c) / 100 = decValue a := by
    omega
  have hm : (100 * decValue a + 10 * digitValue b + digitValue c) % 100 =
      10 * digitValue b + digitValue c := by
    omega
  have hint : Nat.repr (decValue a) = String.mk a := by
    show String.mk (Nat.toDigits 10 (decValue a)) = _
    rw [toDigits_decValue a hne ha hlead]
  have hfrac : Nat.repr (10 * digitValue b + digitValue c) = String.mk [b, c] := by
    show String.mk (Nat.toDigits 10 (10 * digitValue b + digitValue c)) = _
    rw [toDigits_mul_add hbpos hcv, toDigits_of_lt hbv, digitChar_digitValue hb,
      digitChar_digitValue hc]
    rfl
  rw [intToFloatString_natCast, hq, hm, hint, hfrac]
  apply String.ext
  simp [String.data_append]

/-- Witness of `round_trip`: the text "12.34". -/
theorem round_trip_witness :
    ∃ n : Int, Atoi (replaceDots (String.mk (['1', '2'] ++ ['.', '3', '4']))) = some n ∧
      intToFloatString n = String.mk (['1', '2'] ++ ['.', '3', '4']) :=
  round_trip ['1', '2'] '3' '4' (by decide) (by decide) (by decide) (by decide) (by decide)
    (by decide) (by decide)

/-- C9 (docstring of `intToFloatString`).  The documented result for 109 is a
numeral of value 109/100, but the function returns "1.9", which reads as
19/10: the fraction is printed without its leading zero. -/
theorem intToFloatString_109_value :
    intToFloatString 109 = "1.9" ∧
      decimalValue (intToFloatString 109) = some (19 / 10) ∧
      decimalValue (intToFloatString 109) ≠ some (109 / 100) := by
  have hs : intToFloatString 109 = "1.9" := rfl
  have hv : decimalValue "1.9" =
      some ((decValue ['1'] : ℚ) + (decValue ['9'] : ℚ) / 10 ^ 1) := rfl
  have h1 : decValue ['1'] = 1 := rfl
  have h9 : decValue ['9'] = 9 := rfl
  rw [hs, hv, h1, h9]
  norm_num

/-! ## End-to-end runs -/

/-- C16 (zero start and header skip).  All nine accumulators start at zero
and the first row is skipped without being read: for the empty table and for
every table of a single row, whatever its fields, `calculate` returns the
nine report rows with every amount equal to "0.0". -/
theorem zero_start_header_skip (clients : List (List String)) :
    (Acc.zero.sum = 0 ∧ ∀ c, Acc.zero.get c = 0) ∧
      calculate [] clients =
        .ok [["TSM", ":", "0.0"], ["GEE", ":", "0.0"], ["LESTRIS", ":", "0.0"],
          ["LEGAL TEHNOLOGIES", ":", "0.0"], ["TEHNOGRANT", ":", "0.0"],
          ["SACRAMENTO", ":", "0.0"], ["DIVAT", ":", "0.0"], ["MDTRANS", ":", "0.0"],
          ["", "", "", "Sum", "", "0.0"]] ∧
      ∀ h : List String, calculate [h] clients =
        .ok [["TSM", ":", "0.0"], ["GEE", ":", "0.0"], ["LESTRIS", ":", "0.0"],
          ["LEGAL TEHNOLOGIES", ":", "0.0"], ["TEHNOGRANT", ":", "0.0"],
          ["SACRAMENTO", ":", "0.0"], ["DIVAT", ":", "0.0"], ["MDTRANS", ":", "0.0"],
          ["", "", "", "Sum", "", "0.0"]] := by
  refine ⟨⟨rfl, fun c => by cases c <;> rfl⟩, rfl, fun h => ?_⟩
  simp only [calculate, calculateLoop_zero_cons]
  rfl

/-- C12 (end-to-end example).  For a header row followed, in any order, by
three data rows with identifier "022207210" and column 10 "1.99" and one
data row with identifier "022207204" and column 10 "2.99", `calculate`
returns TSM "4.98", LESTRIS "2.50", Sum "7.47" and "0.0" for the six other
categories. -/
theorem end_to_end_example (h : List String) (d clients : List (List String))
    (r1 r2 r3 r4 : List String) (hd : d.Perm [r1, r2, r3, r4])
    (h1 : r1[0]? = some "022207210" ∧ r1[10]? = some "1.99")
    (h2 : r2[0]? = some "022207210" ∧ r2[10]? = some "1.99")
    (h3 : r3[0]? = some "022207210" ∧ r3[10]? = some "1.99")
    (h4 : r4[0]? = some "022207204" ∧ r4[10]? = some "2.99") :
    calculate (h :: d) clients =
      .ok [["TSM", ":", "4.98"], ["GEE", ":", "0.0"], ["LESTRIS", ":", "2.50"],
        ["LEGAL TEHNOLOGIES", ":", "0.0"], ["TEHNOGRANT", ":", "0.0"],
        ["SACRAMENTO", ":", "0.0"], ["DIVAT", ":", "0.0"], ["MDTRANS", ":", "0.0"],
        ["", "", "", "Sum", "", "7.47"]] := by
  have hp1 : Atoi (replaceDots "1.99") = some 199 := rfl
  have hp4 : Atoi (replaceDots "2.99") = some 299 := rfl
  have hloop : calculateLoop 1 [r1, r2, r3, r4] Acc.zero =
      .ok (bump (bump (bump (bump Acc.zero "022207210" 199) "022207210" 199)
        "022207210" 199) "022207204" 299) := by
    simp only [calculateLoop_one_cons, loopBody_ok _ h1.1 h1.2 hp1, loopBody_ok _ h2.1 h2.2 hp1,
      loopBody_ok _ h3.1 h3.2 hp1, loopBody_ok _ h4.1 h4.2 hp4]
    rfl
  have hperm := calculateLoop_perm hd Acc.zero
  rw [hloop] at hperm
  simp only [calculate, calculateLoop_zero_cons]
  cases hres : calculateLoop 1 d Acc.zero with
  | error e => rw [hres] at hperm; cases hperm
  | ok a =>
    rw [hres] at hperm
    have ha : a = bump (bump (bump (bump Acc.zero "022207210" 199) "022207210" 199)
        "022207210" 199) "022207204" 299 := by
      simpa [Except.toOption] using hperm
    rw [ha]
    rfl

/-- Witness of `end_to_end_example`: the LESTRIS row comes second. -/
theorem end_to_end_example_witness :
    calculate
        [["id"], ["022207210", "", "", "", "", "", "", "", "", "", "1.99"],
          ["022207204", "", "", "", "", "", "", "", "", "", "2.99"],
          ["022207210", "", "", "", "", "", "", "", "", "", "1.99"],
          ["022207210", "", "", "", "", "", "", "", "", "", "1.99"]] [["client"]] =
      .ok [["TSM", ":", "4.98"], ["GEE", ":", "0.0"], ["LESTRIS", ":", "2.50"],
        ["LEGAL TEHNOLOGIES", ":", "0.0"], ["TEHNOGRANT", ":", "0.0"],
        ["SACRAMENTO", ":", "0.0"], ["DIVAT", ":", "0.0"], ["MDTRANS", ":", "0.0"],
        ["", "", "", "Sum", "", "7.47"]] :=
  end_to_end_example ["id"] _ [["client"]]
    ["022207210", "", "", "", "", "", "", "", "", "", "1.99"]
    ["022207210", "", "", "", "", "", "", "", "", "", "1.99"]
    ["022207210", "", "", "", "", "", "", "", "", "", "1.99"]
    ["022207204", "", "", "", "", "", "", "", "", "", "2.99"]
    (by decide) ⟨rfl, rfl⟩ ⟨rfl, rfl⟩ ⟨rfl, rfl⟩ ⟨rfl, rfl⟩

/-! ## Classification -/

/-- The specification's classifier finds a category exactly when its set
contains the identifier. -/
theorem classifySpec_eq_some {item : String} {c : Category} (h : classifySpec item = some c) :
    item ∈ c.ids := by
  have := List.find?_some h
  simpa using this

/-- The specification's classifier finds nothing exactly when no set contains
the identifier. -/
theorem classifySpec_eq_none {item : String} (h : classifySpec item = none) :
    ∀ c : Category, item ∉ c.ids := by
  intro c
  have hall := List.find?_eq_none.mp h c (by cases c <;> decide)
  simpa using hall

/-- C13 (classifier).  The eight identifier sets are pairwise disjoint, and on
a row that parses the chain of eight `if` statements of the loop body updates
exactly the accumulator of the first table entry (order TSM, GEE, LESTRIS,
LEGAL TEHNOLOGIES, TEHNOGRANT, SACRAMENTO, DIVAT, MDTRANS) whose set contains
the identifier and no other category accumulator, or no category accumulator
at all when no set contains it. -/
theorem classifier_first_match (acc : Acc) (row : List String) (item field : String)
    (q : Int) (h0 : row[0]? = some item) (h10 : row[10]? = some field)
    (hq : Atoi (replaceDots field) = some q) :
    (∀ c c' : Category, c ≠ c' → ∀ x ∈ c.ids, x ∉ c'.ids) ∧
      ∃ acc', loopBody acc row = .ok acc' ∧
        match classifySpec item with
        | some c =>
          acc'.get c = goAdd (acc.get c) q ∧ ∀ c', c' ≠ c → acc'.get c' = acc.get c'
        | none => ∀ c, acc'.get c = acc.get c := by
  refine ⟨ids_disjoint, bump acc item q, loopBody_ok acc h0 h10 hq, ?_⟩
  cases hcl : classifySpec item with
  | none =>
    intro c
    exact bump_get_of_not_mem acc q (classifySpec_eq_none hcl c)
  | some c =>
    have hc := classifySpec_eq_some hcl
    exact ⟨bump_get_of_mem acc q hc, fun c' hne =>
      bump_get_of_not_mem acc q (ids_disjoint c c' (Ne.symm hne) item hc)⟩

/-- Witness of `classifier_first_match`: a MDTRANS row, the last table entry. -/
theorem classifier_first_match_witness :
    (∀ c c' : Category, c ≠ c' → ∀ x ∈ c.ids, x ∉ c'.ids) ∧
      ∃ acc', loopBody Acc.zero
          ["022207279", "", "", "", "", "", "", "", "", "", "0.07"] = .ok acc' ∧
        match classifySpec "022207279" with
        | some c =>
          acc'.get c = goAdd (Acc.zero.get c) 7 ∧
            ∀ c', c' ≠ c → acc'.get c' = Acc.zero.get c'
        | none => ∀ c, acc'.get c = Acc.zero.get c :=
  classifier_first_match Acc.zero ["022207279", "", "", "", "", "", "", "", "", "", "0.07"]
    "022207279" "0.07" 7 rfl rfl rfl

/-! ## Inputs that are not read -/

/-- The loop body reads only columns 0 and 10 of the row. -/
theorem loopBody_congr (acc : Acc) {a b : List String} (h0 : a[0]? = b[0]?)
    (h10 : a[10]? = b[10]?) : loopBody acc a = loopBody acc b := by
  simp only [loopBody, h0, h10]

/-- The loop over data rows that agree position by position on columns 0 and
10 gives the same result. -/
theorem calculateLoop_congr (d1 : List (List String)) :
    ∀ (d2 : List (List String)) (acc : Acc), d1.length = d2.length →
      (∀ (i : Nat) (a b : List String), d1[i]? = some a → d2[i]? = some b →
        a[0]? = b[0]? ∧ a[10]? = b[10]?) →
      calculateLoop 1 d1 acc = calculateLoop 1 d2 acc := by
  induction d1 with
  | nil =>
    intro d2 acc hlen _
    cases d2 with
    | nil => rfl
    | cons b d2 => simp at hlen
  | cons a d1 ih =>
    intro d2 acc hlen hag
    cases d2 with
    | nil => simp at hlen
    | cons b d2 =>
      have hab := hag 0 a b (by simp) (by simp)
      rw [calculateLoop_one_cons, calculateLoop_one_cons, loopBody_congr acc hab.1 hab.2]
      cases loopBody acc b with
      | error e => rfl
      | ok acc' =>
        exact ih d2 acc' (by simpa using hlen)
          (fun i x y hx hy => hag (i + 1) x y (by simpa using hx) (by simpa using hy))

/-- C14 (unused inputs).  For two client tables and two order tables with
the same number of rows, whose data rows (index 1 and up) have at least 11
fields and agree position by position on columns 0 and 10, the two runs of
`calculate` have the same outcome: the client table, the header row and the
other columns are not read. -/
theorem unused_inputs (r1 r2 c1 c2 : List (List String)) (hlen : r1.length = r2.length)
    (hrows : ∀ (i : Nat) (a b : List String), 1 ≤ i → r1[i]? = some a → r2[i]? = some b →
      11 ≤ a.length ∧ 11 ≤ b.length ∧ a[0]? = b[0]? ∧ a[10]? = b[10]?) :
    calculate r1 c1 = calculate r2 c2 := by
  have hloop : calculateLoop 1 r1.tail Acc.zero = calculateLoop 1 r2.tail Acc.zero := by
    apply calculateLoop_congr
    · simp [hlen]
    · intro i a b ha hb
      have ha' : r1[i + 1]? = some a := by
        cases r1 with
        | nil => simp at ha
        | cons h d => simpa using ha
      have hb' : r2[i + 1]? = some b := by
        cases r2 with
        | nil => simp at hb
        | cons h d => simpa using hb
      exact (hrows (i + 1) a b (by omega) ha' hb').2.2
  simp only [calculate, calculateLoop_zero, hloop]

/-- Witness of `unused_inputs`: two tables that differ in the header, in
column 3 of the data row and in the client table. -/
theorem unused_inputs_witness :
    calculate [["id", "x"], ["022207249", "", "", "a", "", "", "", "", "", "", "5.00"]]
        [["c1"]] =
      calculate [["no"], ["022207249", "", "", "b", "", "", "", "", "", "", "5.00", "z"]]
        [["c2"], ["c3"]] :=
  unused_inputs _ _ _ _ rfl (by
    intro i a b hi ha hb
    match i, hi with
    | 1, _ =>
      simp only [List.getElem?_cons_succ, List.getElem?_cons_zero, Option.some.injEq] at ha hb
      subst ha; subst hb
      decide
    | i + 2, _ => simp at ha)

/-! ## Failures -/

/-- Only the ten decimal digit characters have a digit value. -/
theorem mem_decDigits_of_digitOf {c : Char} {d : Nat} (h : digitOf c = some d) :
    c ∈ decDigits := by
  unfold digitOf at h
  split_ifs at h with hc
  rw [← Char.ofNat_toNat c]
  generalize c.toNat = k at hc
  obtain ⟨h1, h2⟩ := hc
  interval_cases k <;> decide

/-- The digit loop succeeds only on strings of decimal digits. -/
theorem parseUint_some_mem (ds : List Char) :
    ∀ n v : Nat, parseUint ds n = some v → ∀ c ∈ ds, c ∈ decDigits := by
  induction ds with
  | nil => intro n v _ c hc; simp at hc
  | cons x xs ih =>
    intro n v h c hc
    unfold parseUint at h
    cases hx : digitOf x with
    | none => simp [hx] at h
    | some d =>
      simp only [hx] at h
      rcases List.mem_cons.mp hc with hc | hc
      · rw [hc]; exact mem_decDigits_of_digitOf hx
      · exact ih _ _ h c hc

/-- The digit loop from 0: it succeeds exactly on strings of decimal digits,
with the value they denote. -/
theorem parseUint_zero (ds : List Char) :
    parseUint ds 0 = if ∀ c ∈ ds, c ∈ decDigits then some (decValue ds) else none := by
  split_ifs with h
  · rw [parseUint_digits ds 0 h, Nat.zero_mul, Nat.zero_add]
  · cases hp : parseUint ds 0 with
    | none => rfl
    | some v => exact absurd (parseUint_some_mem ds 0 v hp) h

/-- The part of `Atoi` after the sign: it fails exactly when a character is
not a digit or the value exceeds the bound. -/
theorem atoi_digits_eq_none (ds : List Char) (bound : Nat) (f : Nat → Int) :
    (match parseUint ds 0 with
      | none => none
      | some u => if u ≤ bound then some (f u) else none) = none ↔
      ¬ ((∀ c ∈ ds, c ∈ decDigits) ∧ decValue ds ≤ bound) := by
  rw [parseUint_zero]
  by_cases hd : ∀ c ∈ ds, c ∈ decDigits
  · rw [if_pos hd]
    by_cases hr : decValue ds ≤ bound
    · simp only [if_pos hr]
      constructor
      · intro h; cases h
      · intro h; exact absurd ⟨hd, hr⟩ h
    · simp only [if_neg hr]
      constructor
      · intro _ h; exact hr h.2
      · intro _; trivial
  · rw [if_neg hd]
    simp [hd]

/-- The function `Atoi` fails exactly on the texts that are not valid integer
literals. -/
theorem Atoi_eq_none_iff (s : String) : Atoi s = none ↔ ¬ ValidIntLiteral s := by
  unfold Atoi ValidIntLiteral
  cases hs : s.data with
  | nil => simp [literalDigits]
  | cons c cs =>
    by_cases hm : c = '-'
    · subst hm
      simp only [literalDigits, true_or, if_true, List.head?_cons]
      by_cases hcs : cs = []
      · simp [hcs]
      · rw [if_neg hcs, atoi_digits_eq_none]
        tauto
    · by_cases hp : c = '+'
      · subst hp
        have hne : ¬ (some '+' = some '-') := by decide
        simp only [literalDigits, or_true, if_true, List.head?_cons, hm, if_false, hne]
        by_cases hcs : cs = []
        · simp [hcs]
        · rw [if_neg hcs, atoi_digits_eq_none]
          tauto
      · have hne : ¬ (some c = some '-') := by simpa using hm
        have hnil : c :: cs ≠ [] := by simp
        simp only [literalDigits, hm, hp, or_self, if_false, List.head?_cons, hne]
        rw [atoi_digits_eq_none]
        tauto

/-- A row of at least 11 fields has a column 0 and a column 10. -/
theorem columns_of_wide {row : List String} (hw : 11 ≤ row.length) :
    (∃ item, row[0]? = some item) ∧ ∃ field, row[10]? = some field :=
  ⟨⟨row[0], List.getElem?_eq_getElem (by omega)⟩, ⟨row[10], List.getElem?_eq_getElem (by omega)⟩⟩

/-- On a row of at least 11 fields the loop body can only stop at the first
`log.Fatalf`. -/
theorem loopBody_error_wide (acc : Acc) {row : List String} (hw : 11 ≤ row.length)
    {e : Failure} (h : loopBody acc row = .error e) : ∃ item, e = .fatalPrice item := by
  obtain ⟨⟨item, h0⟩, ⟨field, h10⟩⟩ := columns_of_wide hw
  cases hq : Atoi (replaceDots field) with
  | none =>
    simp only [loopBody, h0, h10, hq] at h
    injection h with h
    exact ⟨item, h.symm⟩
  | some q =>
    rw [loopBody_ok acc h0 h10 hq] at h
    cases h

/-- The loop over the data rows stops early exactly when some row has no
parsed amount. -/
theorem calculateLoop_error_iff (d : List (List String)) :
    ∀ acc : Acc, (∃ e, calculateLoop 1 d acc = .error e) ↔ ∃ row ∈ d, amountOf row = none := by
  induction d with
  | nil =>
    intro acc
    constructor
    · rintro ⟨e, he⟩; cases he
    · rintro ⟨row, hrow, _⟩; simp at hrow
  | cons x xs ih =>
    intro acc
    rw [calculateLoop_one_cons]
    cases hx : amountOf x with
    | none =>
      obtain ⟨e, he⟩ := loopBody_of_no_amount acc hx
      rw [he]
      exact ⟨fun _ => ⟨x, List.mem_cons_self x xs, hx⟩, fun _ => ⟨e, rfl⟩⟩
    | some q =>
      rw [loopBody_of_amount acc hx]
      simp only []
      rw [ih]
      constructor
      · rintro ⟨row, hrow, hnone⟩
        exact ⟨row, List.mem_cons_of_mem x hrow, hnone⟩
      · rintro ⟨row, hrow, hnone⟩
        rcases List.mem_cons.mp hrow with hr | hr
        · rw [hr, hx] at hnone; cases hnone
        · exact ⟨row, hr, hnone⟩

/-- A failure of the loop is a failure of the loop body on one of the rows. -/
theorem calculateLoop_error_source (d : List (List String)) :
    ∀ (acc : Acc) (e : Failure), calculateLoop 1 d acc = .error e →
      ∃ row ∈ d, ∃ a, loopBody a row = .error e := by
  induction d with
  | nil => intro acc e h; cases h
  | cons x xs ih =>
    intro acc e h
    rw [calculateLoop_one_cons] at h
    cases hx : loopBody acc x with
    | error e' =>
      rw [hx] at h
      injection h with h
      subst h
      exact ⟨x, List.mem_cons_self x xs, acc, hx⟩
    | ok acc' =>
      rw [hx] at h
      obtain ⟨row, hrow, a, ha⟩ := ih acc' e h
      exact ⟨row, List.mem_cons_of_mem x hrow, a, ha⟩

/-- The outcome of `calculate` from the outcome of the loop over the data
rows. -/
theorem calculate_eq (rows clients : List (List String)) :
    calculate rows clients =
      match calculateLoop 1 rows.tail Acc.zero with
      | .error e => .error e
      | .ok a => .ok (report a) := by
  simp only [calculate, calculateLoop_zero]

/-- The run stops without a report exactly when the loop over the data rows
stops early, with the same failure. -/
theorem calculate_error_iff (rows clients : List (List String)) (e : Failure) :
    calculate rows clients = .error e ↔ calculateLoop 1 rows.tail Acc.zero = .error e := by
  rw [calculate_eq]
  cases calculateLoop 1 rows.tail Acc.zero with
  | error e' => simp
  | ok a => simp

/-- When every data row has at least 11 fields a run can only stop at the
first `log.Fatalf`. -/
theorem calculate_error_wide (rows clients : List (List String))
    (hw : ∀ row ∈ rows.tail, 11 ≤ row.length) (e : Failure)
    (he : calculate rows clients = .error e) : ∃ item, e = .fatalPrice item := by
  obtain ⟨row, hrow, a, ha⟩ :=
    calculateLoop_error_source _ _ _ ((calculate_error_iff rows clients e).mp he)
  exact loopBody_error_wide a (hw row hrow) ha

/-- C11 (parse failure is fatal, and only that).  When every data row has at
least 11 fields, `calculate` stops without a report if and only if some data
row has a column 10 that, after every `.` is removed, is not a valid base-10
integer literal (optional sign, at least one digit, within the range of
`int`); the stop is then the `log.Fatalf` of the price, no report rows are
returned, and replacing the header row changes nothing. -/
theorem parse_failure_fatal (rows clients : List (List String))
    (hw : ∀ row ∈ rows.tail, 11 ≤ row.length) :
    ((∃ e, calculate rows clients = .error e) ↔
        ∃ row ∈ rows.tail, ∃ field, row[10]? = some field ∧
          ¬ ValidIntLiteral (replaceDots field)) ∧
      (∀ e, calculate rows clients = .error e → ∃ item, e = .fatalPrice item) ∧
      (∀ e, calculate rows clients = .error e → ∀ rep, calculate rows clients ≠ .ok rep) ∧
      ∀ h : List String, calculate (h :: rows.tail) clients = calculate rows clients := by
  refine ⟨?_, ?_, ?_, ?_⟩
  · simp only [calculate_error_iff, calculateLoop_error_iff]
    constructor
    · rintro ⟨row, hrow, hnone⟩
      obtain ⟨-, ⟨field, h10⟩⟩ := columns_of_wide (hw row hrow)
      refine ⟨row, hrow, field, h10, ?_⟩
      simp only [amountOf, h10] at hnone
      exact (Atoi_eq_none_iff _).mp hnone
    · rintro ⟨row, hrow, field, h10, hbad⟩
      refine ⟨row, hrow, ?_⟩
      simp only [amountOf, h10]
      exact (Atoi_eq_none_iff _).mpr hbad
  · exact calculate_error_wide rows clients hw
  · intro e he rep hrep
    rw [he] at hrep
    cases hrep
  · intro h
    rw [calculate_eq, calculate_eq]
    rfl

/-- Witness of `parse_failure_fatal`: a table whose second data row has the
column 10 "abc". -/
theorem parse_failure_fatal_witness :
    ((∃ e, calculate
          [["id"], ["022207210", "", "", "", "", "", "", "", "", "", "1.99"],
            ["022207204", "", "", "", "", "", "", "", "", "", "abc"]] [] = .error e) ↔
        ∃ row ∈ [["id"], ["022207210", "", "", "", "", "", "", "", "", "", "1.99"],
            ["022207204", "", "", "", "", "", "", "", "", "", "abc"]].tail,
          ∃ field, row[10]? = some field ∧ ¬ ValidIntLiteral (replaceDots field)) ∧
      calculate
          [["id"], ["022207210", "", "", "", "", "", "", "", "", "", "1.99"],
            ["022207204", "", "", "", "", "", "", "", "", "", "abc"]] [] =
        .error (.fatalPrice "022207204") :=
  ⟨(parse_failure_fatal
      [["id"], ["022207210", "", "", "", "", "", "", "", "", "", "1.99"],
        ["022207204", "", "", "", "", "", "", "", "", "", "abc"]] [] (by decide)).1, rfl⟩

/-- C15, as stated, fails: a data row of exactly 10 fields has no column 10,
and the run ends with an index failure. -/
theorem ten_fields_index_failure :
    (∀ row ∈ [["id"], ["022207210", "", "", "", "", "", "", "", "", "1.99"]].tail,
        10 ≤ row.length) ∧
      calculate [["id"], ["022207210", "", "", "", "", "", "", "", "", "1.99"]] [] =
        .error .indexOutOfRange :=
  ⟨by decide, rfl⟩

/-- C15, amended (row-width precondition).  When every data row has at least
11 fields, one more than the highest referenced column index 10, every
access to column 0 and column 10 is in range and the run ends with a report
or with the parse failure of a price, never with an index failure. -/
theorem row_width_precondition (rows clients : List (List String))
    (hw : ∀ row ∈ rows.tail, 11 ≤ row.length) :
    (∀ row ∈ rows.tail, (∃ item, row[0]? = some item) ∧ ∃ field, row[10]? = some field) ∧
      calculate rows clients ≠ .error .indexOutOfRange ∧
      ((∃ rep, calculate rows clients = .ok rep) ∨
        ∃ item, calculate rows clients = .error (.fatalPrice item)) := by
  have hfatal := calculate_error_wide rows clients hw
  refine ⟨fun row hrow => columns_of_wide (hw row hrow), ?_, ?_⟩
  · intro h
    obtain ⟨item, hitem⟩ := hfatal _ h
    cases hitem
  · cases hres : calculate rows clients with
    | ok rep => exact Or.inl ⟨rep, rfl⟩
    | error e =>
      obtain ⟨item, hitem⟩ := hfatal e hres
      exact Or.inr ⟨item, by rw [hitem]⟩

/-- Witness of `row_width_precondition`: one data row of exactly 11 fields. -/
theorem row_width_precondition_witness :
    (∀ row ∈ [["id"], ["022207210", "", "", "", "", "", "", "", "", "", "1.99"]].tail,
        (∃ item, row[0]? = some item) ∧ ∃ field, row[10]? = some field) ∧
      calculate [["id"], ["022207210", "", "", "", "", "", "", "", "", "", "1.99"]] [] ≠
        .error .indexOutOfRange ∧
      ((∃ rep, calculate
          [["id"], ["022207210", "", "", "", "", "", "", "", "", "", "1.99"]] [] = .ok rep) ∨
        ∃ item, calculate
          [["id"], ["022207210", "", "", "", "", "", "", "", "", "", "1.99"]] [] =
            .error (.fatalPrice item)) :=
  row_width_precondition
    [["id"], ["022207210", "", "", "", "", "", "", "", "", "", "1.99"]] [] (by decide)

/-! ## Negative aggregates -/

/-- C17, as stated, fails: the accumulator value -5 (the sum of a table
whose only data row has the column 10 "-0.05") is reported as "0.-5", with
a signed fraction, while floor and mod would give "-1.96". -/
theorem negative_amount_not_floor :
    calculate [["id"], ["000000000", "", "", "", "", "", "", "", "", "", "-0.05"]] [] =
        .ok [["TSM", ":", "0.0"], ["GEE", ":", "0.0"], ["LESTRIS", ":", "0.0"],
          ["LEGAL TEHNOLOGIES", ":", "0.0"], ["TEHNOGRANT", ":", "0.0"],
          ["SACRAMENTO", ":", "0.0"], ["DIVAT", ":", "0.0"], ["MDTRANS", ":", "0.0"],
          ["", "", "", "Sum", "", "0.-5"]] ∧
      intToFloatString ((-5 : Int) - (-5 : Int).tdiv 6) = "0.-5" ∧
      floorAmountSpec (-5) = "-1.96" ∧
      intToFloatString ((-5 : Int) - (-5 : Int).tdiv 6) ≠ floorAmountSpec (-5) := by
  refine ⟨rfl, rfl, rfl, ?_⟩
  decide

/-- The deduction and the cents split of a negative value: every division
truncates toward zero. -/
theorem negative_deduction (n : Int) (hn : n < 0) :
    ∃ m : Nat, 0 < m ∧ (m : Int) = -n - (-n) / 6 ∧ n - n.tdiv 6 = -(m : Int) ∧
      centsSplit (-(m : Int)) = (-((m / 100 : Nat) : Int), -((m % 100 : Nat) : Int)) := by
  have hv : n - n.tdiv 6 = -(((-n) - (-n) / 6).toNat : Int) := by
    rw [tdiv_of_neg (by omega) hn]
    omega
  refine ⟨((-n) - (-n) / 6).toNat, by omega, by omega, hv, ?_⟩
  generalize ((-n) - (-n) / 6).toNat = m
  have hq : (-(m : Int)).tdiv 100 = -((m / 100 : Nat) : Int) := by
    rw [Int.neg_tdiv, Int.tdiv_eq_ediv (by omega) (by omega)]
    norm_cast
  have hr : -(m : Int) - (-(m : Int)).tdiv 100 * 100 = -((m % 100 : Nat) : Int) := by
    rw [hq]; omega
  show ((-(m : Int)).tdiv 100, -(m : Int) - (-(m : Int)).tdiv 100 * 100) = _
  rw [hr, hq]

/-! ## Sum versus categories -/

/-- The category total in terms of `Acc.get`. -/
theorem categoryTotal_eq (a : Acc) :
    a.categoryTotal =
      a.get .tsm + a.get .gee + a.get .lestris + a.get .legalteh + a.get .tehnogrant +
        a.get .sacramento + a.get .divat + a.get .mdtrans := rfl

/-- A categorised bump without overflow adds the amount to the grand total
and to the category total. -/
theorem bump_categorised (acc : Acc) {item : String} {c : Category} {v : Int}
    (hc : item ∈ c.ids) (hv : 0 ≤ v) (hpos : ∀ c', 0 ≤ acc.get c')
    (hsum : acc.sum = acc.categoryTotal) (hfit : acc.sum + v ≤ maxInt) :
    (∀ c', 0 ≤ (bump acc item v).get c') ∧
      (bump acc item v).sum = acc.sum + v ∧
      (bump acc item v).categoryTotal = acc.categoryTotal + v := by
  have hle : acc.get c ≤ acc.sum := by
    rw [hsum, categoryTotal_eq]
    have h1 := hpos .tsm; have h2 := hpos .gee; have h3 := hpos .lestris
    have h4 := hpos .legalteh; have h5 := hpos .tehnogrant; have h6 := hpos .sacramento
    have h7 := hpos .divat; have h8 := hpos .mdtrans
    cases c <;> omega
  have hc0 : 0 ≤ acc.get c := hpos c
  have hfit' : acc.sum + v ≤ 9223372036854775807 := hfit
  have hr1 : inIntRange (acc.get c + v) :=
    ⟨by show (-9223372036854775808 : Int) ≤ _; omega,
      by show _ ≤ (9223372036854775807 : Int); omega⟩
  have hr2 : inIntRange (acc.sum + v) :=
    ⟨by show (-9223372036854775808 : Int) ≤ _; omega,
      by show _ ≤ (9223372036854775807 : Int); omega⟩
  have hget : ∀ c', (bump acc item v).get c' = if c' = c then acc.get c' + v else acc.get c' := by
    intro c'
    by_cases hcc : c' = c
    · subst hcc
      rw [if_pos rfl, bump_get_of_mem acc v hc, goAdd]
      exact wrapInt_of_inIntRange hr1
    · rw [if_neg hcc]
      exact bump_get_of_not_mem acc v (ids_disjoint c c' (Ne.symm hcc) item hc)
  refine ⟨?_, ?_, ?_⟩
  · intro c'
    rw [hget]
    have := hpos c'
    split_ifs <;> omega
  · show goAdd acc.sum v = acc.sum + v
    rw [goAdd]
    exact wrapInt_of_inIntRange hr2
  · rw [categoryTotal_eq, categoryTotal_eq]
    simp only [hget]
    cases c <;> simp <;> omega

/-- The loop over categorised rows with non-negative amounts whose total fits
an `int`: the grand total stays equal to the category total. -/
theorem calculateLoop_categorised (d : List (List String)) :
    ∀ (vs : List Int) (acc : Acc), d.map amountOf = vs.map some → (∀ v ∈ vs, 0 ≤ v) →
      (∀ row ∈ d, ∃ item c, row[0]? = some item ∧ item ∈ Category.ids c) →
      (∀ c, 0 ≤ acc.get c) → acc.sum = acc.categoryTotal → acc.sum + vs.sum ≤ maxInt →
      ∃ acc', calculateLoop 1 d acc = .ok acc' ∧ (∀ c, 0 ≤ acc'.get c) ∧
        acc'.sum = acc'.categoryTotal ∧ acc'.sum = acc.sum + vs.sum := by
  induction d with
  | nil =>
    intro vs acc h _ _ hpos hsum _
    cases vs with
    | nil => exact ⟨acc, rfl, hpos, hsum, by simp⟩
    | cons v vs => simp at h
  | cons row rest ih =>
    intro vs acc h hnn hcat hpos hsum hfit
    cases vs with
    | nil => simp at h
    | cons v vs =>
      simp only [List.map_cons, List.cons.injEq] at h
      obtain ⟨item, c, h0, hc⟩ := hcat row (List.mem_cons_self row rest)
      have hv : 0 ≤ v := hnn v (List.mem_cons_self v vs)
      have hvs : 0 ≤ vs.sum := List.sum_nonneg (fun x hx => hnn x (List.mem_cons_of_mem v hx))
      rw [List.sum_cons] at hfit
      have hitem : row.headD "" = item := by
        cases row with
        | nil => simp at h0
        | cons x xs => simpa using h0
      obtain ⟨hpos', hsum', htot'⟩ :=
        bump_categorised acc hc hv hpos hsum (by omega)
      obtain ⟨acc', hloop, hp, hs, hfin⟩ :=
        ih vs (bump acc item v) h.2 (fun x hx => hnn x (List.mem_cons_of_mem v hx))
          (fun r hr => hcat r (List.mem_cons_of_mem row hr)) hpos'
          (by rw [hsum', htot', hsum]) (by rw [hsum']; omega)
      refine ⟨acc', ?_, hp, hs, ?_⟩
      · rw [calculateLoop_one_cons, loopBody_of_amount acc h.1, hitem]
        exact hloop
      · rw [hfin, hsum', List.sum_cons]; omega

/-- The deductions of eight non-negative parts against the deduction of their
sum. -/
theorem deducted_sum_bounds {s a b c d e f g h : Int} (hs : s = a + b + c + d + e + f + g + h)
    (ha : 0 ≤ a) (hb : 0 ≤ b) (hc : 0 ≤ c) (hd : 0 ≤ d) (he : 0 ≤ e) (hf : 0 ≤ f)
    (hg : 0 ≤ g) (hh : 0 ≤ h) :
    deducted s ≤ deducted a + deducted b + deducted c + deducted d + deducted e + deducted f +
        deducted g + deducted h ∧
      deducted a + deducted b + deducted c + deducted d + deducted e + deducted f +
        deducted g + deducted h ≤ deducted s + 6 := by
  unfold deducted
  rw [Int.tdiv_eq_ediv ha (by omega), Int.tdiv_eq_ediv hb (by omega),
    Int.tdiv_eq_ediv hc (by omega), Int.tdiv_eq_ediv hd (by omega),
    Int.tdiv_eq_ediv he (by omega), Int.tdiv_eq_ediv hf (by omega),
    Int.tdiv_eq_ediv hg (by omega), Int.tdiv_eq_ediv hh (by omega),
    Int.tdiv_eq_ediv (show 0 ≤ s by omega) (by omega)]
  omega

/-- C18, as stated, fails: with a TSM row of 92233720368547758.07 and a GEE
row of 0.01 (both amounts non-negative, both rows categorised) the grand
total wraps around to the smallest `int`, so it is not the sum of the
category accumulators and the reported Sum lies far below the reported
category amounts. -/
theorem sum_versus_categories_overflow :
    [["id"], ["022207210", "", "", "", "", "", "", "", "", "", "92233720368547758.07"],
        ["022207201", "", "", "", "", "", "", "", "", "", "0.01"]].tail.map amountOf =
        [some 9223372036854775807, some 1] ∧
      calculateLoop 0
        [["id"], ["022207210", "", "", "", "", "", "", "", "", "", "92233720368547758.07"],
          ["022207201", "", "", "", "", "", "", "", "", "", "0.01"]] Acc.zero =
        .ok ⟨-9223372036854775808, 9223372036854775807, 1, 0, 0, 0, 0, 0, 0⟩ ∧
      (-9223372036854775808 : Int) ≠ 9223372036854775807 + 1 + 0 + 0 + 0 + 0 + 0 + 0 ∧
      ¬ (deducted 9223372036854775807 + deducted 1 + deducted 0 + deducted 0 + deducted 0 +
          deducted 0 + deducted 0 + deducted 0 ≤ deducted (-9223372036854775808) + 6) := by
  refine ⟨rfl, rfl, by decide, by decide⟩

/-- C18, amended (reported Sum versus reported categories).  When every data
row has an identifier of some category and a column 10 that parses to a
non-negative amount, and the amounts add up to at most the largest `int` (no
64-bit overflow), the grand total `S` equals the sum of the eight category
accumulators, and the deducted values satisfy
`S - S/6 ≤ Σ (cᵢ - cᵢ/6) ≤ (S - S/6) + 6`. -/
theorem sum_versus_categories (rows clients : List (List String)) (vs : List Int)
    (hparse : rows.tail.map amountOf = vs.map some) (hnonneg : ∀ v ∈ vs, 0 ≤ v)
    (hcat : ∀ row ∈ rows.tail, ∃ item c, row[0]? = some item ∧ item ∈ Category.ids c)
    (hfit : vs.sum ≤ maxInt) :
    ∃ acc, calculateLoop 0 rows Acc.zero = .ok acc ∧
      calculate rows clients = .ok (report acc) ∧
      acc.sum = vs.sum ∧
      acc.sum = acc.tsm + acc.gee + acc.lestris + acc.legalteh + acc.tehnogrant +
        acc.sacramento + acc.divat + acc.mdtrans ∧
      deducted acc.sum ≤ deducted acc.tsm + deducted acc.gee + deducted acc.lestris +
        deducted acc.legalteh + deducted acc.tehnogrant + deducted acc.sacramento +
        deducted acc.divat + deducted acc.mdtrans ∧
      deducted acc.tsm + deducted acc.gee + deducted acc.lestris + deducted acc.legalteh +
        deducted acc.tehnogrant + deducted acc.sacramento + deducted acc.divat +
        deducted acc.mdtrans ≤ deducted acc.sum + 6 := by
  obtain ⟨acc, hloop, hpos, hsum, hfin⟩ :=
    calculateLoop_categorised rows.tail vs Acc.zero hparse hnonneg hcat
      (fun c => by cases c <;> decide) rfl (by simpa [Acc.zero] using hfit)
  have hb := deducted_sum_bounds hsum (hpos .tsm) (hpos .gee) (hpos .lestris) (hpos .legalteh)
    (hpos .tehnogrant) (hpos .sacramento) (hpos .divat) (hpos .mdtrans)
  refine ⟨acc, by rw [calculateLoop_zero, hloop], by rw [calculate_eq, hloop], ?_, hsum,
    hb.1, hb.2⟩
  rw [hfin]
  simp [Acc.zero]

/-- Witness of `sum_versus_categories`: seven rows of 0.05 in seven different
categories, where the reported categories exceed the reported Sum by 5. -/
theorem sum_versus_categories_witness :
    ∃ acc, calculateLoop 0
        [["id"], ["022207210", "", "", "", "", "", "", "", "", "", "0.05"],
          ["022207201", "", "", "", "", "", "", "", "", "", "0.05"],
          ["022207204", "", "", "", "", "", "", "", "", "", "0.05"],
          ["022207224", "", "", "", "", "", "", "", "", "", "0.05"],
          ["022207244", "", "", "", "", "", "", "", "", "", "0.05"],
          ["022207249", "", "", "", "", "", "", "", "", "", "0.05"],
          ["022207266", "", "", "", "", "", "", "", "", "", "0.05"]] Acc.zero = .ok acc ∧
      calculate
        [["id"], ["022207210", "", "", "", "", "", "", "", "", "", "0.05"],
          ["022207201", "", "", "", "", "", "", "", "", "", "0.05"],
          ["022207204", "", "", "", "", "", "", "", "", "", "0.05"],
          ["022207224", "", "", "", "", "", "", "", "", "", "0.05"],
          ["022207244", "", "", "", "", "", "", "", "", "", "0.05"],
          ["022207249", "", "", "", "", "", "", "", "", "", "0.05"],
          ["022207266", "", "", "", "", "", "", "", "", "", "0.05"]] [] = .ok (report acc) ∧
      acc.sum = [5, 5, 5, 5, 5, 5, 5].sum ∧
      acc.sum = acc.tsm + acc.gee + acc.lestris + acc.legalteh + acc.tehnogrant +
        acc.sacramento + acc.divat + acc.mdtrans ∧
      deducted acc.sum ≤ deducted acc.tsm + deducted acc.gee + deducted acc.lestris +
        deducted acc.legalteh + deducted acc.tehnogrant + deducted acc.sacramento +
        deducted acc.divat + deducted acc.mdtrans ∧
      deducted acc.tsm + deducted acc.gee + deducted acc.lestris + deducted acc.legalteh +
        deducted acc.tehnogrant + deducted acc.sacramento + deducted acc.divat +
        deducted acc.mdtrans ≤ deducted acc.sum + 6 :=
  sum_versus_categories _ [] [5, 5, 5, 5, 5, 5, 5] (by decide) (by decide)
    (by
      intro row hrow
      simp only [List.tail_cons, List.mem_cons, List.mem_singleton, List.not_mem_nil,
        or_false] at hrow
      rcases hrow with h | h | h | h | h | h | h <;> subst h
      · exact ⟨"022207210", .tsm, rfl, by decide⟩
      · exact ⟨"022207201", .gee, rfl, by decide⟩
      · exact ⟨"022207204", .lestris, rfl, by decide⟩
      · exact ⟨"022207224", .legalteh, rfl, by decide⟩
      · exact ⟨"022207244", .tehnogrant, rfl, by decide⟩
      · exact ⟨"022207249", .sacramento, rfl, by decide⟩
      · exact ⟨"022207266", .divat, rfl, by decide⟩)
    (by decide)

/-! ## Injectivity of the rendering -/

/-- The digits of a rendering denote the rendered number. -/
theorem decValue_toDigits (n : Nat) : decValue (Nat.toDigits 10 n) = n := by
  induction n using Nat.strong_induction_on with
  | _ n ih =>
    by_cases h : n < 10
    · rw [toDigits_of_lt h]
      have : decValue [Nat.digitChar n] = decValue ([] ++ [Nat.digitChar n]) := rfl
      rw [this, decValue_append_singleton, decValue_nil, digitValue_digitChar h]
      omega
    · rw [toDigits_of_ge (by omega), decValue_append_singleton, ih (n / 10) (by omega),
        digitValue_digitChar (Nat.mod_lt _ (by omega))]
      omega

/-- Two numbers with the same decimal rendering are equal. -/
theorem toDigits_inj {m n : Nat} (h : Nat.toDigits 10 m = Nat.toDigits 10 n) : m = n := by
  rw [← decValue_toDigits m, ← decValue_toDigits n, h]

/-- The characters printed by `%d`. -/
theorem fmtD_data (x : Int) :
    (fmtD x).data =
      if x < 0 then '-' :: Nat.toDigits 10 x.natAbs else Nat.toDigits 10 x.natAbs := by
  unfold fmtD
  split_ifs <;> rfl

/-- The verb `%d` prints no point. -/
theorem dot_not_mem_fmtD (x : Int) : '.' ∉ (fmtD x).data := by
  have hd : '.' ∉ Nat.toDigits 10 x.natAbs := fun h => ne_dot_of_mem (toDigits_mem _ _ h) rfl
  rw [fmtD_data]
  split_ifs
  · intro h
    rcases List.mem_cons.mp h with h | h
    · exact absurd h (by decide)
    · exact hd h
  · exact hd

/-- Two integers with the same `%d` rendering are equal. -/
theorem fmtD_inj {x y : Int} (h : fmtD x = fmtD y) : x = y := by
  have hdata : (fmtD x).data = (fmtD y).data := by rw [h]
  have hminus : ∀ k : Nat, '-' ∉ Nat.toDigits 10 k :=
    fun k hk => ne_minus_of_mem (toDigits_mem _ _ hk) rfl
  have hne : ∀ k : Nat, Nat.toDigits 10 k ≠ [] := by
    intro k hk
    by_cases h10 : k < 10
    · rw [toDigits_of_lt h10] at hk; cases hk
    · rw [toDigits_of_ge (by omega)] at hk; simp at hk
  rw [fmtD_data, fmtD_data] at hdata
  by_cases hx : x < 0 <;> by_cases hy : y < 0
  · rw [if_pos hx, if_pos hy] at hdata
    have := toDigits_inj (List.cons.inj hdata).2
    omega
  · rw [if_pos hx, if_neg hy] at hdata
    exact absurd (hdata ▸ List.mem_cons_self '-' _) (hminus _)
  · rw [if_neg hx, if_pos hy] at hdata
    exact absurd (hdata.symm ▸ List.mem_cons_self '-' _) (hminus _)
  · rw [if_neg hx, if_neg hy] at hdata
    have := toDigits_inj hdata
    omega

/-- Two texts split at their first point agree part by part. -/
theorem split_at_dot (l1 : List Char) :
    ∀ (l2 r1 r2 : List Char), '.' ∉ l1 → '.' ∉ l2 → l1 ++ '.' :: r1 = l2 ++ '.' :: r2 →
      l1 = l2 ∧ r1 = r2 := by
  induction l1 with
  | nil =>
    intro l2 r1 r2 _ h2 h
    cases l2 with
    | nil => simpa using h
    | cons c cs =>
      simp only [List.nil_append, List.cons_append, List.cons.injEq] at h
      exact absurd (h.1 ▸ List.mem_cons_self _ _) h2
  | cons c cs ih =>
    intro l2 r1 r2 h1 h2 h
    cases l2 with
    | nil =>
      simp only [List.nil_append, List.cons_append, List.cons.injEq] at h
      exact absurd (h.1.symm ▸ List.mem_cons_self _ _) h1
    | cons d ds =>
      simp only [List.cons_append, List.cons.injEq] at h
      obtain ⟨hl, hr⟩ := ih ds r1 r2 (fun hm => h1 (List.mem_cons_of_mem c hm))
        (fun hm => h2 (List.mem_cons_of_mem d hm)) h.2
      exact ⟨by rw [h.1, hl], hr⟩

/-- C19 (injectivity).  For all integers `m` and `n`, equal results of
`intToFloatString` come from equal arguments; 105 gives "1.5" and 150 gives
"1.50". -/
theorem intToFloatString_injective (m n : Int)
    (h : intToFloatString m = intToFloatString n) :
    m = n ∧ intToFloatString 105 = "1.5" ∧ intToFloatString 150 = "1.50" := by
  refine ⟨?_, rfl, rfl⟩
  have hdata : (intToFloatString m).data = (intToFloatString n).data := by rw [h]
  simp only [intToFloatString, String.data_append] at hdata
  rw [List.append_assoc, List.append_assoc, List.singleton_append,
    List.singleton_append] at hdata
  obtain ⟨hq, hr⟩ := split_at_dot _ _ _ _ (dot_not_mem_fmtD _) (dot_not_mem_fmtD _) hdata
  have hq' := fmtD_inj (String.ext hq)
  have hr' := fmtD_inj (String.ext hr)
  rw [hq'] at hr'
  omega

/-- Witness of `intToFloatString_injective`: 105 written in two ways. -/
theorem intToFloatString_injective_witness :
    (100 + 5 : Int) = 210 / 2 ∧ intToFloatString 105 = "1.5" ∧
      intToFloatString 150 = "1.50" :=
  intToFloatString_injective (100 + 5) (210 / 2) rfl

/-! ## Reported amounts -/

/-- The function `intToFloatString` prints the two numbers of `centsSplit`. -/
theorem intToFloatString_eq_centsSplit (n : Int) :
    intToFloatString n = fmtD (centsSplit n).1 ++ "." ++ fmtD (centsSplit n).2 := rfl

/-- A report returned by `calculate` is the report of the accumulators the
loop ends with. -/
theorem calculate_ok_report {rows clients rep : List (List String)}
    (h : calculate rows clients = .ok rep) :
    ∃ acc, calculateLoop 0 rows Acc.zero = .ok acc ∧ rep = report acc := by
  unfold calculate at h
  cases hl : calculateLoop 0 rows Acc.zero with
  | error e => rw [hl] at h; cases h
  | ok a =>
    rw [hl] at h
    injection h with h
    exact ⟨a, rfl, h.symm⟩

/-- The amount of every report row is `intToFloatString (n - n/6)` for the
accumulator `n` of that row. -/
theorem amountAt_report (acc : Acc) (k : Nat) (hk : k < 9) :
    amountAt (report acc) k =
      some (intToFloatString (acc.slot k - (acc.slot k).tdiv 6)) := by
  interval_cases k <;> rfl

/-- C6 (deduction and cents split).  Whenever `calculate` returns, for every
report row `k` whose accumulator holds a value `n ≥ 0`, the amount in that
row is `D q ++ "." ++ D r` with `v = n - ⌊n/6⌋`, `q = ⌊v/100⌋`, `r = v mod 100`
and `D` the unpadded decimal rendering of a natural number; `q` and `r` are
the truncated quotient and remainder, `v = 100 * q + r` with `r < 100`. -/
theorem deduction_and_cents_split (rows clients rep : List (List String))
    (h : calculate rows clients = .ok rep) :
    ∃ acc, calculateLoop 0 rows Acc.zero = .ok acc ∧
      ∀ k n : Nat, k < 9 → acc.slot k = (n : Int) →
        amountAt rep k =
            some (Nat.repr ((n - n / 6) / 100) ++ "." ++ Nat.repr ((n - n / 6) % 100)) ∧
          n - n / 6 = 100 * ((n - n / 6) / 100) + (n - n / 6) % 100 ∧
          (n - n / 6) % 100 < 100 := by
  obtain ⟨acc, hloop, hrep⟩ := calculate_ok_report h
  refine ⟨acc, hloop, fun k n hk hn => ⟨?_, by omega, by omega⟩⟩
  rw [hrep, amountAt_report acc k hk, hn, deducted_amount_natCast]

/-- Witness of `deduction_and_cents_split`: a table with a TEHNOGRANT row of
13.00 and a LEGAL TEHNOLOGIES row of 0.25. -/
theorem deduction_and_cents_split_witness :
    ∃ acc, calculateLoop 0
        [["id"], ["022207244", "", "", "", "", "", "", "", "", "", "13.00"],
          ["022207224", "", "", "", "", "", "", "", "", "", "0.25"]] Acc.zero = .ok acc ∧
      ∀ k n : Nat, k < 9 → acc.slot k = (n : Int) →
        amountAt
            [["TSM", ":", "0.0"], ["GEE", ":", "0.0"], ["LESTRIS", ":", "0.0"],
              ["LEGAL TEHNOLOGIES", ":", "0.21"], ["TEHNOGRANT", ":", "10.84"],
              ["SACRAMENTO", ":", "0.0"], ["DIVAT", ":", "0.0"], ["MDTRANS", ":", "0.0"],
              ["", "", "", "Sum", "", "11.5"]] k =
            some (Nat.repr ((n - n / 6) / 100) ++ "." ++ Nat.repr ((n - n / 6) % 100)) ∧
          n - n / 6 = 100 * ((n - n / 6) / 100) + (n - n / 6) % 100 ∧
          (n - n / 6) % 100 < 100 :=
  deduction_and_cents_split
    [["id"], ["022207244", "", "", "", "", "", "", "", "", "", "13.00"],
      ["022207224", "", "", "", "", "", "", "", "", "", "0.25"]] []
    [["TSM", ":", "0.0"], ["GEE", ":", "0.0"], ["LESTRIS", ":", "0.0"],
      ["LEGAL TEHNOLOGIES", ":", "0.21"], ["TEHNOGRANT", ":", "10.84"],
      ["SACRAMENTO", ":", "0.0"], ["DIVAT", ":", "0.0"], ["MDTRANS", ":", "0.0"],
      ["", "", "", "Sum", "", "11.5"]] rfl

/-- C17, amended (negative aggregates).  Whenever `calculate` returns, for
every report row `k` whose accumulator holds a negative value `n`, all
divisions truncate toward zero: with `m = |n| − ⌊|n|/6⌋ > 0` the deducted
value is `v = n − n/6 = −m`, the amount of the row is `intToFloatString v`,
and the two numbers it is made of are the integer part `v/100 = −⌊m/100⌋` and
the fractional part `v − 100·(v/100) = −(m mod 100)`, a value between −99
and 0. -/
theorem negative_aggregates (rows clients rep : List (List String))
    (h : calculate rows clients = .ok rep) :
    ∃ acc, calculateLoop 0 rows Acc.zero = .ok acc ∧
      ∀ k : Nat, k < 9 → acc.slot k < 0 →
        ∃ m : Nat, 0 < m ∧ (m : Int) = -(acc.slot k) - (-(acc.slot k)) / 6 ∧
          acc.slot k - (acc.slot k).tdiv 6 = -(m : Int) ∧
          amountAt rep k = some (intToFloatString (-(m : Int))) ∧
          centsSplit (-(m : Int)) = (-((m / 100 : Nat) : Int), -((m % 100 : Nat) : Int)) ∧
          -99 ≤ (centsSplit (-(m : Int))).2 ∧ (centsSplit (-(m : Int))).2 ≤ 0 := by
  obtain ⟨acc, hloop, hrep⟩ := calculate_ok_report h
  refine ⟨acc, hloop, fun k hk hn => ?_⟩
  obtain ⟨m, hm, hmn, hv, hsplit⟩ := negative_deduction (acc.slot k) hn
  refine ⟨m, hm, hmn, hv, ?_, hsplit, ?_, ?_⟩
  · rw [hrep, amountAt_report acc k hk, hv]
  · rw [hsplit]; show -99 ≤ -((m % 100 : Nat) : Int); omega
  · rw [hsplit]; show -((m % 100 : Nat) : Int) ≤ 0; omega

/-- Witness of `negative_aggregates`: a table whose only data row is an
uncategorised row of -7.00, so that the grand total is -700. -/
theorem negative_aggregates_witness :
    ∃ acc, calculateLoop 0
        [["id"], ["000000000", "", "", "", "", "", "", "", "", "", "-7.00"]] Acc.zero =
        .ok acc ∧
      ∀ k : Nat, k < 9 → acc.slot k < 0 →
        ∃ m : Nat, 0 < m ∧ (m : Int) = -(acc.slot k) - (-(acc.slot k)) / 6 ∧
          acc.slot k - (acc.slot k).tdiv 6 = -(m : Int) ∧
          amountAt (report ⟨-700, 0, 0, 0, 0, 0, 0, 0, 0⟩) k =
            some (intToFloatString (-(m : Int))) ∧
          centsSplit (-(m : Int)) = (-((m / 100 : Nat) : Int), -((m % 100 : Nat) : Int)) ∧
          -99 ≤ (centsSplit (-(m : Int))).2 ∧ (centsSplit (-(m : Int))).2 ≤ 0 :=
  negative_aggregates
    [["id"], ["000000000", "", "", "", "", "", "", "", "", "", "-7.00"]] []
    (report ⟨-700, 0, 0, 0, 0, 0, 0, 0, 0⟩) rfl

end Callreport
